import Mathlib

/-!
Verification development for a Bitcoin mining proxy (Rust sources
`src/main.rs`, `src/msg_framing.rs`).  The wire protocol, the message
framers, the template/pool merge function and the handler state machines
are embedded shallowly: byte buffers are `List Nat` (each entry one
octet), machine integers are `Nat`/`Int` with explicit reductions
modulo `2^w` exactly where the Rust arithmetic can wrap, and the
cryptographic primitives (secp256k1 keys/signatures, SHA-256,
transaction consensus serialization), which live in external crates,
are carried as opaque byte strings with verification abstracted into a
boolean parameter.
-/

set_option maxRecDepth 100000

/-! ## Byte codec (little-endian primitives, `src/msg_framing.rs`) -/

/-- Little-endian encoding of `v` into exactly `n` bytes (the value is
implicitly reduced modulo `2^(8*n)`, as the Rust `put_u16/u32/u64`
writers do for their fixed-width arguments). -/
def leBytes : Nat → Nat → List Nat
  | 0, _ => []
  | n + 1, v => (v % 256) :: leBytes n (v / 256)

/-- Little-endian value of a byte slice; mirrors `slice_to_le16/32/64`
in `src/msg_framing.rs` (those are always applied to exactly-sized
slices, so a single fold covers all three). -/
def fromLEBytes : List Nat → Nat :=
  List.foldr (fun b acc => b + 256 * acc) 0

/-- First byte of a slice; the Rust decoders write `get_slice!(1)[0]`. -/
def byte1 (l : List Nat) : Nat := l.headD 0

/-! ## Data model (`src/msg_framing.rs`)

Bitcoin `Script` values and consensus-serialized transactions are
opaque byte strings here: the proxy never inspects them, it only
copies them through, so `List Nat` is a faithful carrier.  Likewise a
secp256k1 public key is its 33-byte SEC1 serialization and a signature
its 64-byte compact serialization; curve-level validity checks done by
the external secp256k1 crate are outside the embedded state space
(round-tripping a key or signature produced by the library always
reconstructs the same object, which is what these byte strings model).
Fields whose Rust names end in reserved words are camel-cased, e.g.
the source field coinbase_prefix is spelled coinbasePrefix. -/

structure TxOut where
  value : Nat
  script_pubkey : List Nat
  deriving DecidableEq, Repr

structure BlockTemplate where
  template_id : Nat
  target : List Nat
  header_version : Nat
  header_prevblock : List Nat
  header_time : Nat
  header_nbits : Nat
  merkle_rhss : List (List Nat)
  coinbase_value_remaining : Nat
  coinbase_version : Nat
  coinbasePrefix : List Nat
  coinbase_input_sequence : Nat
  appended_coinbase_outputs : List TxOut
  coinbase_locktime : Nat
  deriving DecidableEq, Repr

structure CoinbasePrefixPostfix where
  timestamp : Nat
  coinbasePrefixPostfix : List Nat
  deriving DecidableEq, Repr

structure WinningNonce where
  template_id : Nat
  header_version : Nat
  header_time : Nat
  header_nonce : Nat
  coinbase_tx : List Nat
  deriving DecidableEq, Repr

structure TransactionData where
  template_id : Nat
  transactions : List (List Nat)
  deriving DecidableEq, Repr

structure PoolPayoutInfo where
  timestamp : Nat
  self_payout_ratio_per_1000 : Nat
  coinbasePostfix : List Nat
  remaining_payout : List Nat
  appended_outputs : List TxOut
  deriving DecidableEq, Repr

structure PoolDifficulty where
  share_target : List Nat
  weak_block_target : List Nat
  deriving DecidableEq, Repr

structure PoolShare where
  header_version : Nat
  header_prevblock : List Nat
  header_time : Nat
  header_nbits : Nat
  header_nonce : Nat
  merkle_rhss : List (List Nat)
  coinbase_tx : List Nat
  deriving DecidableEq, Repr

inductive WeakBlockAction where
  | skipN (n : Nat)
  | includeTx
  | newTx (tx : List Nat)
  deriving DecidableEq, Repr

structure WeakBlock where
  header_version : Nat
  header_prevblock : List Nat
  header_time : Nat
  header_nbits : Nat
  header_nonce : Nat
  sketch_id : Nat
  prev_sketch_id : Nat
  txn : List WeakBlockAction
  deriving DecidableEq, Repr

inductive WorkMessage where
  | protocolSupport (max_version min_version flags : Nat)
  | protocolVersion (selected_version : Nat) (auth_key : List Nat)
  | blockTemplate (signature : List Nat) (template : BlockTemplate)
  | winningNonce (nonces : WinningNonce)
  | transactionDataRequest (template_id : Nat)
  | transactionData (signature : List Nat) (data : TransactionData)
  | coinbasePrefixPostfix (signature : List Nat) (cpp : CoinbasePrefixPostfix)
  deriving DecidableEq, Repr

inductive PoolMessage where
  | protocolSupport (max_version min_version flags : Nat)
  | protocolVersion (selected_version : Nat) (auth_key : List Nat)
  | payoutInfo (signature : List Nat) (payout_info : PoolPayoutInfo)
  | shareDifficulty (difficulty : PoolDifficulty)
  | share (s : PoolShare)
  | weakBlock (sketch : WeakBlock)
  | weakBlockStateReset
  deriving DecidableEq, Repr

/-! ## Encoders (`impl codec::Encoder`, `encode_unsigned`, `encode`) -/

/-- One appended coinbase output on the wire:
`value u64 | script_len u16 | script bytes`. -/
def encodeTxOut (o : TxOut) : List Nat :=
  leBytes 8 o.value ++ leBytes 2 o.script_pubkey.length ++ o.script_pubkey

/-- `BlockTemplate::encode_unsigned` (`src/msg_framing.rs:54`); the two
count fields and the coinbase-prefix length are written with `as u8`
casts, hence reduced modulo 256. -/
def encodeTemplateUnsigned (t : BlockTemplate) : List Nat :=
  leBytes 8 t.template_id ++ t.target ++
  leBytes 4 t.header_version ++ t.header_prevblock ++
  leBytes 4 t.header_time ++ leBytes 4 t.header_nbits ++
  [t.merkle_rhss.length % 256] ++ t.merkle_rhss.flatten ++
  leBytes 8 t.coinbase_value_remaining ++
  leBytes 4 t.coinbase_version ++
  [t.coinbasePrefix.length % 256] ++ t.coinbasePrefix ++
  leBytes 4 t.coinbase_input_sequence ++
  [t.appended_coinbase_outputs.length % 256] ++
  (t.appended_coinbase_outputs.map encodeTxOut).flatten ++
  leBytes 4 t.coinbase_locktime

/-- `CoinbasePrefixPostfix::encode_unsigned` (`src/msg_framing.rs:93`). -/
def encodeCppUnsigned (c : CoinbasePrefixPostfix) : List Nat :=
  leBytes 8 c.timestamp ++ [c.coinbasePrefixPostfix.length % 256] ++
  c.coinbasePrefixPostfix

/-- `WinningNonce::encode` (`src/msg_framing.rs:110`); `coinbase_tx` is
already its consensus serialization in this embedding. -/
def encodeWinningNonce (n : WinningNonce) : List Nat :=
  leBytes 8 n.template_id ++ leBytes 4 n.header_version ++
  leBytes 4 n.header_time ++ leBytes 4 n.header_nonce ++
  leBytes 4 n.coinbase_tx.length ++ n.coinbase_tx

/-- `TransactionData::encode_unsigned` (`src/msg_framing.rs:127`). -/
def encodeTxDataUnsigned (d : TransactionData) : List Nat :=
  leBytes 8 d.template_id ++ leBytes 4 d.transactions.length ++
  (d.transactions.map (fun tx => leBytes 4 tx.length ++ tx)).flatten

/-- `PoolPayoutInfo::encode_unsigned` (`src/msg_framing.rs:485`). -/
def encodePayoutInfoUnsigned (i : PoolPayoutInfo) : List Nat :=
  leBytes 8 i.timestamp ++ leBytes 2 i.self_payout_ratio_per_1000 ++
  [i.coinbasePostfix.length % 256] ++ i.coinbasePostfix ++
  leBytes 2 i.remaining_payout.length ++ i.remaining_payout ++
  [i.appended_outputs.length % 256] ++
  (i.appended_outputs.map encodeTxOut).flatten

/-- The `action_buff` packing loop of `WeakBlock::encode`
(`src/msg_framing.rs:566`): `action_buff` is a `u8`, so the shift
drops high bits; a pending IncludeTx buffer that never fills its top
two bits by end of list is dropped, exactly as in the source. -/
def encodeWBActions : Nat → List WeakBlockAction → List Nat
  | _, [] => []
  | buff, .skipN n :: rest =>
    (buff * 4 % 256 ||| 1) :: n :: encodeWBActions 0 rest
  | buff, .includeTx :: rest =>
    let buff' := buff * 4 % 256 ||| 2
    if buff' &&& 192 ≠ 0 then buff' :: encodeWBActions 0 rest
    else encodeWBActions buff' rest
  | buff, .newTx tx :: rest =>
    (buff * 4 % 256 ||| 3) :: (leBytes 4 tx.length ++ tx) ++
    encodeWBActions 0 rest

/-- `WeakBlock::encode` (`src/msg_framing.rs:554`). -/
def encodeWeakBlock (w : WeakBlock) : List Nat :=
  leBytes 4 w.header_version ++ w.header_prevblock ++
  leBytes 4 w.header_time ++ leBytes 4 w.header_nbits ++
  leBytes 4 w.header_nonce ++
  leBytes 8 w.sketch_id ++ leBytes 8 w.prev_sketch_id ++
  encodeWBActions 0 w.txn

/-- `WorkMsgFramer` encoder (`src/msg_framing.rs:204`): one tag byte,
then the variant payload. -/
def encodeWorkMsg : WorkMessage → List Nat
  | .protocolSupport a b c => 1 :: (leBytes 2 a ++ leBytes 2 b ++ leBytes 2 c)
  | .protocolVersion v k => 2 :: (leBytes 2 v ++ k)
  | .blockTemplate sig t => 3 :: (sig ++ encodeTemplateUnsigned t)
  | .winningNonce n => 4 :: encodeWinningNonce n
  | .transactionDataRequest id => 5 :: leBytes 8 id
  | .transactionData sig d => 6 :: (sig ++ encodeTxDataUnsigned d)
  | .coinbasePrefixPostfix sig c => 7 :: (sig ++ encodeCppUnsigned c)

/-- `PoolMsgFramer` encoder (`src/msg_framing.rs:649`). -/
def encodePoolMsg : PoolMessage → List Nat
  | .protocolSupport a b c => 1 :: (leBytes 2 a ++ leBytes 2 b ++ leBytes 2 c)
  | .protocolVersion v k => 2 :: (leBytes 2 v ++ k)
  | .payoutInfo sig i => 3 :: (sig ++ encodePayoutInfoUnsigned i)
  | .shareDifficulty d => 4 :: (d.share_target ++ d.weak_block_target)
  | .share s =>
    5 :: (leBytes 4 s.header_version ++ s.header_prevblock ++
      leBytes 4 s.header_time ++ leBytes 4 s.header_nbits ++
      leBytes 4 s.header_nonce ++ [s.merkle_rhss.length % 256] ++
      s.merkle_rhss.flatten ++ leBytes 4 s.coinbase_tx.length ++ s.coinbase_tx)
  | .weakBlock w => 6 :: encodeWeakBlock w
  | .weakBlockStateReset => [7]

/-! ## Decoders (`impl codec::Decoder`, `src/msg_framing.rs:282,705`)

The Rust decoders walk the buffer with a `read_pos` cursor and a
`get_slice!` macro that returns `Ok(None)` (NeedMore) when the buffer
is too short; `bytes.advance(read_pos)` happens only immediately
before a successful return, so the read cursor never moves on NeedMore
or Invalid.  A position `read_pos` into `bytes` is represented here by
the not-yet-read suffix of the buffer (the two are interconvertible;
`bytes.len() < read_pos + n` is exactly `remaining.length < n`),
together with the total buffer length, which the absolute quick
checks `if bytes.len() < N` consult. -/

inductive DStep (α : Type) where
  | needMore
  | invalid
  | ok (a : α) (rest : List Nat)
  deriving DecidableEq

/-- Shape of a decoder body: a function of the total buffer length and
the remaining (not yet read) bytes. -/
def Rd (α : Type) : Type := Nat → List Nat → DStep α

instance : Monad Rd where
  pure a := fun _ s => .ok a s
  bind m f := fun total s =>
    match m total s with
    | .needMore => .needMore
    | .invalid => .invalid
    | .ok a s' => f a total s'

/-- `get_slice!(n)`: NeedMore unless `n` more bytes remain, else yield
them and advance past them. -/
def readB (n : Nat) : Rd (List Nat) := fun _ s =>
  if s.length < n then .needMore else .ok (s.take n) (s.drop n)

/-- A fatal decode error (bad bound, bad signature, bad tag). -/
def failRd {α : Type} : Rd α := fun _ _ => .invalid

/-- The absolute-length quick checks (`if bytes.len() < N return
Ok(None)`) used before tag-3 and inside tag-6 of the work decoder. -/
def guardLen (n : Nat) : Rd Unit := fun total s =>
  if total < n then .needMore else .ok () s

/-- Run a fixed-count read loop (`for _ in 0..count`). -/
def readCount {α : Type} : Nat → Rd α → Rd (List α)
  | 0, _ => pure []
  | n + 1, p => do
    let x ← p
    let xs ← readCount n p
    pure (x :: xs)

/-- Decoder result for one `decode` call: `complete` also records how
many bytes `bytes.advance(read_pos)` consumed. -/
inductive DecodeResult (α : Type) where
  | needMore
  | invalid
  | complete (msg : α) (consumed : Nat)
  deriving DecidableEq

/-- Run a tag-body reader starting just past the tag byte; on success
the consumed count is the final `read_pos`. -/
def runTag {α : Type} (m : Rd α) (buf : List Nat) : DecodeResult α :=
  match m buf.length (buf.drop 1) with
  | .ok a rest => .complete a (buf.length - rest.length)
  | .needMore => .needMore
  | .invalid => .invalid

/-- Work tag 1 body (`ProtocolSupport`). -/
def pWorkSupport : Rd WorkMessage := do
  let a ← readB 2
  let b ← readB 2
  let c ← readB 2
  pure (.protocolSupport (fromLEBytes a) (fromLEBytes b) (fromLEBytes c))

/-- Work tag 2 body (`ProtocolVersion`); `PublicKey::from_slice` on the
33 raw bytes is modelled as reconstructing those bytes. -/
def pWorkVersion : Rd WorkMessage := do
  let v ← readB 2
  let k ← readB 33
  pure (.protocolVersion (fromLEBytes v) k)

/-- One appended output inside tag-3/tag-3(pool) loops. -/
def pTxOut : Rd TxOut := do
  let v ← readB 8
  let sl ← readB 2
  let sb ← readB (fromLEBytes sl)
  pure ⟨fromLEBytes v, sb⟩

/-- Work tag 3 body (`BlockTemplate`), including the quick length
check `64+8+32+4+32+4+4+1+8+4+1+4+1+4 = 171` and the fatal bounds on
`merkle_rhss_count` and `coinbase_prefix_len`. -/
def pWorkTemplate : Rd WorkMessage := do
  guardLen 171
  let sig ← readB 64
  let tid ← readB 8
  let target ← readB 32
  let hver ← readB 4
  let prev ← readB 32
  let htime ← readB 4
  let hnbits ← readB 4
  let mc ← readB 1
  if 15 < byte1 mc then failRd else do
  let rhss ← readCount (byte1 mc) (readB 32)
  let cvr ← readB 8
  let cver ← readB 4
  let cpl ← readB 1
  if 100 < byte1 cpl then failRd else do
  let cp ← readB (byte1 cpl)
  let cis ← readB 4
  let oc ← readB 1
  let outs ← readCount (byte1 oc) pTxOut
  let clock ← readB 4
  pure (.blockTemplate sig
    { template_id := fromLEBytes tid
      target := target
      header_version := fromLEBytes hver
      header_prevblock := prev
      header_time := fromLEBytes htime
      header_nbits := fromLEBytes hnbits
      merkle_rhss := rhss
      coinbase_value_remaining := fromLEBytes cvr
      coinbase_version := fromLEBytes cver
      coinbasePrefix := cp
      coinbase_input_sequence := fromLEBytes cis
      appended_coinbase_outputs := outs
      coinbase_locktime := fromLEBytes clock })

/-- One transaction inside the tag-6 loop: `tx_len u32 | tx bytes`;
`network::serialize::deserialize` of a complete tx slice is modelled
as yielding those bytes. -/
def pTxBytes : Rd (List Nat) := do
  let lb ← readB 4
  let tb ← readB (fromLEBytes lb)
  pure tb

/-- Work tag 6 body (`TransactionData`): after the count, the source
checks `bytes.len() < 64 + 8 + 4 + tx_count * 4` before looping. -/
def pWorkTxData : Rd WorkMessage := do
  let sig ← readB 64
  let tid ← readB 8
  let cnt ← readB 4
  guardLen (64 + 8 + 4 + fromLEBytes cnt * 4)
  let txs ← readCount (fromLEBytes cnt) pTxBytes
  pure (.transactionData sig ⟨fromLEBytes tid, txs⟩)

/-- Work tag 7 body (`CoinbasePrefixPostfix`) with its fatal `> 100`
length bound. -/
def pWorkCpp : Rd WorkMessage := do
  let sig ← readB 64
  let ts ← readB 8
  let lb ← readB 1
  if 100 < byte1 lb then failRd else do
  let tb ← readB (byte1 lb)
  pure (.coinbasePrefixPostfix sig ⟨fromLEBytes ts, tb⟩)

/-- `WorkMsgFramer::decode` (`src/msg_framing.rs:282`): empty buffer is
NeedMore; tags 4 and 5 are unimplemented in the source (`// TODO`,
returning `Ok(None)`); unknown tags are fatal. -/
def decodeWork (buf : List Nat) : DecodeResult WorkMessage :=
  match buf with
  | [] => .needMore
  | t :: _ =>
    match t with
    | 1 => runTag pWorkSupport buf
    | 2 => runTag pWorkVersion buf
    | 3 => runTag pWorkTemplate buf
    | 4 => .needMore
    | 5 => .needMore
    | 6 => runTag pWorkTxData buf
    | 7 => runTag pWorkCpp buf
    | _ => .invalid

/-- Pool tag 1 body (`ProtocolSupport`). -/
def pPoolSupport : Rd PoolMessage := do
  let a ← readB 2
  let b ← readB 2
  let c ← readB 2
  pure (.protocolSupport (fromLEBytes a) (fromLEBytes b) (fromLEBytes c))

/-- Pool tag 2 body (`ProtocolVersion`). -/
def pPoolVersion : Rd PoolMessage := do
  let v ← readB 2
  let k ← readB 33
  pure (.protocolVersion (fromLEBytes v) k)

/-- Pool tag 3 body (`PayoutInfo`): note there is no bound check on
`coinbase_postfix_len`, unlike the work-side length fields. -/
def pPoolPayout : Rd PoolMessage := do
  let sig ← readB 64
  let ts ← readB 8
  let ratio ← readB 2
  let cpl ← readB 1
  let cpost ← readB (byte1 cpl)
  let sl ← readB 2
  let script ← readB (fromLEBytes sl)
  let oc ← readB 1
  let outs ← readCount (byte1 oc) pTxOut
  pure (.payoutInfo sig
    { timestamp := fromLEBytes ts
      self_payout_ratio_per_1000 := fromLEBytes ratio
      coinbasePostfix := cpost
      remaining_payout := script
      appended_outputs := outs })

/-- Pool tag 4 body (`ShareDifficulty`). -/
def pPoolDifficulty : Rd PoolMessage := do
  let st ← readB 32
  let wt ← readB 32
  pure (.shareDifficulty ⟨st, wt⟩)

/-- `PoolMsgFramer::decode` (`src/msg_framing.rs:705`): tags 5 and 6
are unimplemented (`//TODO`, returning `Ok(None)`); tag 7 completes
immediately consuming only the tag byte. -/
def decodePool (buf : List Nat) : DecodeResult PoolMessage :=
  match buf with
  | [] => .needMore
  | t :: _ =>
    match t with
    | 1 => runTag pPoolSupport buf
    | 2 => runTag pPoolVersion buf
    | 3 => runTag pPoolPayout buf
    | 4 => runTag pPoolDifficulty buf
    | 5 => .needMore
    | 6 => .needMore
    | 7 => .complete .weakBlockStateReset 1
    | _ => .invalid

/-! ## Reader/writer correspondence -/

def POk {α : Type} (p : Rd α) (bs : List Nat) (a : α) (ml : Nat) : Prop :=
  ∀ (total : Nat) (rest : List Nat), ml ≤ total → p total (bs ++ rest) = .ok a rest

def WFOut (o : TxOut) : Prop :=
  o.value < 2 ^ 64 ∧ o.script_pubkey.length < 2 ^ 16

def WFTemplate (t : BlockTemplate) : Prop :=
  t.template_id < 2 ^ 64 ∧ t.target.length = 32 ∧ t.header_version < 2 ^ 32 ∧
  t.header_prevblock.length = 32 ∧ t.header_time < 2 ^ 32 ∧
  t.header_nbits < 2 ^ 32 ∧ t.merkle_rhss.length ≤ 15 ∧
  (∀ r ∈ t.merkle_rhss, r.length = 32) ∧
  t.coinbase_value_remaining < 2 ^ 64 ∧ t.coinbase_version < 2 ^ 32 ∧
  t.coinbasePrefix.length ≤ 100 ∧ t.coinbase_input_sequence < 2 ^ 32 ∧
  t.appended_coinbase_outputs.length < 256 ∧
  (∀ o ∈ t.appended_coinbase_outputs, WFOut o) ∧
  t.coinbase_locktime < 2 ^ 32

def WFCpp (c : CoinbasePrefixPostfix) : Prop :=
  c.timestamp < 2 ^ 64 ∧ c.coinbasePrefixPostfix.length ≤ 100

def WFTxData (d : TransactionData) : Prop :=
  d.template_id < 2 ^ 64 ∧ d.transactions.length < 2 ^ 32 ∧
  ∀ tx ∈ d.transactions, tx.length < 2 ^ 32

def WFPayout (i : PoolPayoutInfo) : Prop :=
  i.timestamp < 2 ^ 64 ∧ i.self_payout_ratio_per_1000 < 2 ^ 16 ∧
  i.coinbasePostfix.length < 256 ∧ i.remaining_payout.length < 2 ^ 16 ∧
  i.appended_outputs.length < 256 ∧ ∀ o ∈ i.appended_outputs, WFOut o

/-! ## Prefix monotonicity of the decoders

`GoodR m` captures that a reader only ever consumes a prefix of the
remaining bytes and, run on a truncation of the buffer, either
reproduces its answer (when the truncation still covers everything it
consumed) or reports NeedMore — never a different answer.  All reader
primitives satisfy it and it is closed under bind, so both decoders
never complete a message on a strict prefix of an input they fully
consume. -/

def GoodR {α : Type} (m : Rd α) : Prop :=
  (∀ total s a rest, m total s = .ok a rest →
    ∃ c, c ≤ s.length ∧ rest = s.drop c) ∧
  (∀ total s total' j, total' ≤ total → j ≤ s.length →
    (∀ a rest, m total s = .ok a rest →
      (s.length - rest.length ≤ j →
        m total' (s.take j) = .ok a ((s.take j).drop (s.length - rest.length)) ∨
        m total' (s.take j) = .needMore) ∧
      (j < s.length - rest.length → m total' (s.take j) = .needMore)) ∧
    (m total s = .invalid →
      m total' (s.take j) = .invalid ∨ m total' (s.take j) = .needMore) ∧
    (m total s = .needMore → m total' (s.take j) = .needMore))

/-! ## Merge engine (`merge_job_pool`, `src/main.rs:491`)

Rust `u64`/`i64` arithmetic is modelled on `Nat`/`Int` with the wraps
made explicit: `toI64` reinterprets a `u64` bit pattern as `i64`,
`wrapI64` reduces an `Int` into the `i64` range (two's complement),
`castU64` is the `as u64` cast, and `Int.tdiv` is the Rust `/`
(truncation towards zero).  The returned value is the merged
`BlockTemplate` of the produced `WorkInfo`; the solution channel and
router spawned alongside it are runtime plumbing with no effect on the
template. -/

def toI64 (u : Nat) : Int :=
  if u < 2 ^ 63 then (u : Int) else (u : Int) - 2 ^ 64

def wrapI64 (x : Int) : Int := (x + 2 ^ 63) % 2 ^ 64 - 2 ^ 63

def castU64 (x : Int) : Nat := (x % 2 ^ 64).toNat

/-- Modelled from the spec: `utils::min_le` lives in `src/utils.rs`,
which is not part of the sources; per the spec it is the minimum of
two 32-byte targets under unsigned 256-bit comparison treating the
bytes as little-endian (on-the-wire order). -/
def min_le (a b : List Nat) : List Nat :=
  if fromLEBytes a ≤ fromLEBytes b then a else b

/-- The output-summing loops of `merge_job_pool`: each output is
checked against 21,000,000 BTC in satoshi before being added into the
running `u64` total (which wraps modulo `2^64` like the Rust `+=`). -/
def addOutputs : Nat → List TxOut → Option Nat
  | acc, [] => some acc
  | acc, o :: rest =>
    if o.value > 21000000 * 100000000 then none
    else addOutputs ((acc + o.value) % 2 ^ 64) rest

/-- The `coinbase_prefix.extend_from_slice` steps of `merge_job_pool`
(`src/main.rs:505` and `:555`). -/
def extendPrefixWith (t : BlockTemplate) (extra : List Nat) : BlockTemplate :=
  { t with coinbasePrefix := t.coinbasePrefix ++ extra }

/-- The optional job-provider prefix-postfix extension at the top of
`merge_job_pool` (`src/main.rs:505`). -/
def extendJobPrefix (t : BlockTemplate)
    (cpp : Option CoinbasePrefixPostfix) : BlockTemplate :=
  match cpp with
  | some pp => extendPrefixWith t pp.coinbasePrefixPostfix
  | none => t

/-- The target-intersection step of `merge_job_pool`
(`src/main.rs:547`): two successive `min_le` updates when pool
difficulty is present. -/
def applyDifficulty (t : BlockTemplate) (d : Option PoolDifficulty) :
    BlockTemplate :=
  match d with
  | some pool_diff =>
    { t with
      target := min_le (min_le t.target pool_diff.share_target)
        pool_diff.weak_block_target }
  | none => t

/-- The output-building and template-finalisation tail of
`merge_job_pool` (`src/main.rs:532` onwards), once `value_remaining`
has passed its sign check. -/
def mergeFinish (script : List Nat) (template : BlockTemplate)
    (payout_info : Option (PoolPayoutInfo × Option PoolDifficulty))
    (value_remaining : Int) (ratio : Nat) : BlockTemplate :=
  let our_value := Int.tdiv (wrapI64 (value_remaining * (ratio : Int))) 1000
  match payout_info with
  | some (info, difficulty) =>
    let template3 := extendPrefixWith (applyDifficulty template difficulty)
      info.coinbasePostfix
    { template3 with
      appended_coinbase_outputs :=
        TxOut.mk (castU64 our_value) script ::
        TxOut.mk (castU64 (wrapI64 (value_remaining - our_value)))
          info.remaining_payout ::
        (info.appended_outputs ++ template3.appended_coinbase_outputs) }
  | none =>
    { template with
      appended_coinbase_outputs :=
        TxOut.mk (castU64 our_value) script ::
          template.appended_coinbase_outputs }

/-- `merge_job_pool` (`src/main.rs:491`), returning the merged
template (`None` exactly when the source returns `None`). -/
def mergeJobPool (our_payout_script : List Nat)
    (job_info : Option (BlockTemplate × Option CoinbasePrefixPostfix))
    (payout_info : Option (PoolPayoutInfo × Option PoolDifficulty)) :
    Option BlockTemplate :=
  match job_info with
  | none => none
  | some (template_ref, coinbase_prefix_postfix) =>
    match addOutputs 0 template_ref.appended_coinbase_outputs with
    | none => none
    | some cv0 =>
      let template := extendJobPrefix template_ref coinbase_prefix_postfix
      match
        (match payout_info with
         | some (info, _) =>
           (addOutputs cv0 info.appended_outputs).map
             (fun c => (c, info.self_payout_ratio_per_1000))
         | none => some (cv0, 0)) with
      | none => none
      | some (constant_value_output, self_payout_ratio_per_1000) =>
        let value_remaining : Int :=
          wrapI64 (toI64 template.coinbase_value_remaining -
            toI64 constant_value_output)
        if value_remaining < 0 then none
        else some (mergeFinish our_payout_script template payout_info
          value_remaining self_payout_ratio_per_1000)

/-- Sum of the values of a list of outputs (specification side). -/
def outputValueSum (l : List TxOut) : Nat := (l.map TxOut.value).sum

/-! ## Handler state machines (`src/main.rs:105,311`)

Asynchronous plumbing is made explicit: messages a handler emits
(jobs pushed into the merge stream, `TransactionDataRequest` sends,
fulfilled transaction-data one-shots) become an effect list; the
`HashMap<u64, Sender>` of pending requests is carried as its key set;
an `Err(..)` return models `handle_message` failing, which closes the
connection without touching handler state (the source performs no
mutation before any of its early returns).  ECDSA verification of
SHA-256 over the tag byte and unsigned encoding is the abstract
predicate `sigOk sig key preimage`, quantified over in the theorems;
the preimage passed is exactly the bytes the source hashes. -/

inductive JPEffect where
  | pushJob (template : BlockTemplate) (cpp : Option CoinbasePrefixPostfix)
  | sendTxDataRequest (template_id : Nat)
  | fulfillTxData (data : TransactionData)
  deriving DecidableEq

structure JobProviderHandler where
  have_pool : Bool
  stream : Bool
  auth_key : Option (List Nat)
  cur_template : Option BlockTemplate
  curPrefixPostfix : Option CoinbasePrefixPostfix
  pending_tx_data_requests : List Nat
  deriving DecidableEq

/-- The kind of verification predicate abstracting
`secp_ctx.verify(SHA256(tag || encode_unsigned(payload)), sig, key)`:
arguments are signature bytes, key bytes, hashed preimage. -/
def SigPred : Type := List Nat → List Nat → List Nat → Bool

/-- `check_msg_sig!` (`src/main.rs:185`): fails when no auth key is
remembered or when verification fails. -/
def check_msg_sig (sigOk : SigPred) (auth_key : Option (List Nat))
    (tag : Nat) (unsigned : List Nat) (sig : List Nat) : Bool :=
  match auth_key with
  | none => false
  | some pk => sigOk sig pk (tag :: unsigned)

/-- `JobProviderHandler::handle_message` (`src/main.rs:182`). -/
def handleWork (sigOk : SigPred) (us : JobProviderHandler)
    (msg : WorkMessage) :
    Except Unit (JobProviderHandler × List JPEffect) :=
  match msg with
  | .protocolSupport _ _ _ => .error ()
  | .protocolVersion selected_version auth_key =>
    if selected_version ≠ 1 then .error ()
    else match us.auth_key with
      | none => .ok ({ us with auth_key := some auth_key }, [])
      | some k0 => if k0 ≠ auth_key then .error () else .ok (us, [])
  | .blockTemplate signature template =>
    if ¬ check_msg_sig sigOk us.auth_key 3 (encodeTemplateUnsigned template)
        signature then .error ()
    else
      let accept :=
        Except.ok (ε := Unit)
          ({ us with
              cur_template := some template
              pending_tx_data_requests :=
                if template.template_id ∈ us.pending_tx_data_requests then
                  us.pending_tx_data_requests
                else template.template_id :: us.pending_tx_data_requests },
            [JPEffect.pushJob template us.curPrefixPostfix,
             JPEffect.sendTxDataRequest template.template_id])
      match us.cur_template with
      | none => accept
      | some ct =>
        if ct.template_id < template.template_id then accept else .ok (us, [])
  | .winningNonce _ => .error ()
  | .transactionDataRequest _ => .error ()
  | .transactionData signature data =>
    if ¬ check_msg_sig sigOk us.auth_key 6 (encodeTxDataUnsigned data)
        signature then .error ()
    else if data.template_id ∈ us.pending_tx_data_requests then
      .ok ({ us with
          pending_tx_data_requests :=
            us.pending_tx_data_requests.erase data.template_id },
        [JPEffect.fulfillTxData data])
    else .ok (us, [])
  | .coinbasePrefixPostfix signature cpp =>
    if ¬ check_msg_sig sigOk us.auth_key 7 (encodeCppUnsigned cpp)
        signature then .error ()
    else
      let accept :=
        match us.cur_template with
        | some t =>
          Except.ok (ε := Unit)
            ({ us with
                curPrefixPostfix := some cpp
                pending_tx_data_requests :=
                  if t.template_id ∈ us.pending_tx_data_requests then
                    us.pending_tx_data_requests
                  else t.template_id :: us.pending_tx_data_requests },
              [JPEffect.sendTxDataRequest t.template_id,
               JPEffect.pushJob t (some cpp)])
        | none => .ok ({ us with curPrefixPostfix := some cpp }, [])
      match us.curPrefixPostfix with
      | none => accept
      | some cur =>
        if cur.timestamp < cpp.timestamp then accept else .ok (us, [])

inductive PoolEffect where
  | pushPool (info : PoolPayoutInfo) (diff : Option PoolDifficulty)
  deriving DecidableEq

structure PoolHandler where
  pool_priority : Nat
  stream : Bool
  auth_key : Option (List Nat)
  cur_payout_info : Option PoolPayoutInfo
  cur_difficulty : Option PoolDifficulty
  last_weak_block : Bool
  deriving DecidableEq

/-- `PoolHandler::handle_message` (`src/main.rs:405`). -/
def handlePool (sigOk : SigPred) (us : PoolHandler) (msg : PoolMessage) :
    Except Unit (PoolHandler × List PoolEffect) :=
  match msg with
  | .protocolSupport _ _ _ => .error ()
  | .protocolVersion selected_version auth_key =>
    if selected_version ≠ 1 then .error ()
    else match us.auth_key with
      | none => .ok ({ us with auth_key := some auth_key }, [])
      | some k0 => if k0 ≠ auth_key then .error () else .ok (us, [])
  | .payoutInfo signature payout_info =>
    if ¬ check_msg_sig sigOk us.auth_key 3 (encodePayoutInfoUnsigned payout_info)
        signature then .error ()
    else
      let accept :=
        Except.ok (ε := Unit)
          ({ us with cur_payout_info := some payout_info },
            [PoolEffect.pushPool payout_info us.cur_difficulty])
      match us.cur_payout_info with
      | none => accept
      | some cur =>
        if cur.timestamp < payout_info.timestamp then accept else .ok (us, [])
  | .shareDifficulty difficulty =>
    match us.cur_payout_info with
    | some pi =>
      .ok ({ us with cur_difficulty := some difficulty },
        [PoolEffect.pushPool pi (some difficulty)])
    | none => .ok ({ us with cur_difficulty := some difficulty }, [])
  | .share _ => .error ()
  | .weakBlock _ => .error ()
  | .weakBlockStateReset => .ok ({ us with last_weak_block := false }, [])

/-- Connection-level wrapper: on `Err` the connection closes and the
handler object (hence its state) persists unchanged, with no effects
emitted; the Bool records success. -/
def applyWork (sigOk : SigPred) (us : JobProviderHandler)
    (msg : WorkMessage) : JobProviderHandler × List JPEffect × Bool :=
  match handleWork sigOk us msg with
  | .ok (us', effs) => (us', effs, true)
  | .error _ => (us, [], false)

/-- Connection-level wrapper for the pool handler. -/
def applyPool (sigOk : SigPred) (us : PoolHandler) (msg : PoolMessage) :
    PoolHandler × List PoolEffect × Bool :=
  match handlePool sigOk us msg with
  | .ok (us', effs) => (us', effs, true)
  | .error _ => (us, [], false)

/-! ## Pool selection and job tracking (`main`, `src/main.rs:693`)

The two `for_each` closures of `main` mutate a shared `JobInfo`; here
they are a step function over events: a pool connection opening or
closing (`new_connection` / `connection_closed` setting the handler
stream), a payout update arriving from the pool handler with priority
index `i`, and a job arriving from a job provider.  The active pool is
`cur_pool_source`, recorded as the priority index of the handler
(pools are created with `pool_priority := idx` in order,
`src/main.rs:733`). -/

inductive ProxyEvent where
  | poolOpen (i : Nat)
  | poolClose (i : Nat)
  | poolUpdate (i : Nat) (info : PoolPayoutInfo) (diff : Option PoolDifficulty)
  | jobUpdate (t : BlockTemplate) (cpp : Option CoinbasePrefixPostfix)
  deriving DecidableEq

structure JobInfoState where
  payout_script : List Nat
  cur_job : Option (BlockTemplate × Option CoinbasePrefixPostfix)
  cur_pool : Option (PoolPayoutInfo × Option PoolDifficulty)
  cur_pool_source : Option Nat
  pools_connected : List Bool
  deriving DecidableEq

/-- One step of the `main` event loop over `JobInfo`. -/
def stepProxy (s : JobInfoState) (e : ProxyEvent) : JobInfoState :=
  match e with
  | .poolOpen i => { s with pools_connected := s.pools_connected.set i true }
  | .poolClose i => { s with pools_connected := s.pools_connected.set i false }
  | .jobUpdate t cpp =>
    let accept :=
      match mergeJobPool s.payout_script (some (t, cpp)) s.cur_pool with
      | some _ => { s with cur_job := some (t, cpp) }
      | none => s
    match s.cur_job with
    | none => accept
    | some (ct, _) => if ct.template_id < t.template_id then accept else s
  | .poolUpdate i info diff =>
    let skip : Bool :=
      match s.cur_pool_source with
      | some j => s.pools_connected.getD j false && decide (j < i)
      | none => false
    if skip then s
    else
      match mergeJobPool s.payout_script s.cur_job (some (info, diff)) with
      | some _ =>
        { s with cur_pool := some (info, diff), cur_pool_source := some i }
      | none =>
        match s.cur_job with
        | none =>
          { s with cur_pool := some (info, diff), cur_pool_source := some i }
        | some _ => s

/-- Initial `JobInfo` for `n` configured pool servers. -/
def initProxy (script : List Nat) (n : Nat) : JobInfoState :=
  { payout_script := script, cur_job := none, cur_pool := none,
    cur_pool_source := none, pools_connected := List.replicate n false }

/-- Run the event loop from the initial state. -/
def runProxy (script : List Nat) (n : Nat) (evs : List ProxyEvent) :
    JobInfoState :=
  evs.foldl stepProxy (initProxy script n)

/-- Specification-side constant sum of appended outputs on both sides. -/
def cvoOf (t : BlockTemplate) (info : PoolPayoutInfo) : Nat :=
  outputValueSum t.appended_coinbase_outputs +
    outputValueSum info.appended_outputs

/-- Specification-side closed form of the operator value computed by
`merge_job_pool` with a pool present, in exact `i64` semantics. -/
def ourValueI (t : BlockTemplate) (info : PoolPayoutInfo) : Int :=
  Int.tdiv
    (wrapI64 (((t.coinbase_value_remaining - cvoOf t info : Nat) : Int) *
      (info.self_payout_ratio_per_1000 : Int))) 1000

/-! ## Concrete fixtures for counterexamples and witnesses -/

def cTarget0 : List Nat := List.replicate 32 0

/-- A minimal template with a given remaining coinbase value. -/
def cTemplate (cvr : Nat) : BlockTemplate :=
  { template_id := 1, target := cTarget0, header_version := 0,
    header_prevblock := cTarget0, header_time := 0, header_nbits := 0,
    merkle_rhss := [], coinbase_value_remaining := cvr,
    coinbase_version := 0, coinbasePrefix := [],
    coinbase_input_sequence := 0, appended_coinbase_outputs := [],
    coinbase_locktime := 0 }

/-- A minimal pool payout info with a given self-payout ratio. -/
def cInfo (r : Nat) : PoolPayoutInfo :=
  { timestamp := 1, self_payout_ratio_per_1000 := r, coinbasePostfix := [],
    remaining_payout := [5], appended_outputs := [] }

def c64sig : List Nat := List.replicate 64 7

/-- The result of merging `cTemplate 5000000000` with `cInfo 250` (and
an all-zero share target): operator takes 1.25e9, pool 3.75e9. -/
def cMergedC6 : BlockTemplate :=
  { cTemplate 5000000000 with
    appended_coinbase_outputs :=
      [TxOut.mk 1250000000 [9], TxOut.mk 3750000000 [5]] }

/-- The result of merging `cTemplate 5000000000` with no pool. -/
def cMergedC7 : BlockTemplate :=
  { cTemplate 5000000000 with
    appended_coinbase_outputs := [TxOut.mk 0 [9]] }

def cNonce : WinningNonce := ⟨0, 0, 0, 0, []⟩

def cShare : PoolShare := ⟨0, cTarget0, 0, 0, 0, [], []⟩

def cWB : WeakBlock := ⟨0, cTarget0, 0, 0, 0, 0, 0, []⟩

/-- A fully-populated template for the round-trip witness. -/
def cT2 : BlockTemplate :=
  { template_id := 42, target := cTarget0,
    header_version := 536870912, header_prevblock := List.replicate 32 2,
    header_time := 1600000000, header_nbits := 386604799,
    merkle_rhss := [List.replicate 32 3, List.replicate 32 4],
    coinbase_value_remaining := 625000000,
    coinbase_version := 2, coinbasePrefix := [3, 100, 200],
    coinbase_input_sequence := 4294967295,
    appended_coinbase_outputs := [TxOut.mk 546 [81, 82]],
    coinbase_locktime := 0 }

/-- A payout info whose coinbase postfix has 101 bytes, one over the
documented bound. -/
def cInfo101 : PoolPayoutInfo :=
  { timestamp := 7, self_payout_ratio_per_1000 := 400,
    coinbasePostfix := List.replicate 101 1,
    remaining_payout := [5], appended_outputs := [] }

/-- A payout info whose coinbase postfix has 102 bytes. -/
def cInfo102 : PoolPayoutInfo :=
  { timestamp := 7, self_payout_ratio_per_1000 := 400,
    coinbasePostfix := List.replicate 102 1,
    remaining_payout := [5], appended_outputs := [] }

/-- A 170-byte message body whose merkle-count byte (offset 148) is 16. -/
def cRest5 : List Nat :=
  List.replicate 148 0 ++ 16 :: List.replicate 21 0

/-! ## Message-level well-formedness -/

/-- Field bounds under which a `WorkMessage` is representable on the
wire (signatures are 64 bytes, compact pubkeys 33 bytes, counts fit
their length fields); the unimplemented variants carry no bound. -/
def WFWorkMsg : WorkMessage → Prop
  | .protocolSupport a b c => a < 2 ^ 16 ∧ b < 2 ^ 16 ∧ c < 2 ^ 16
  | .protocolVersion v k => v < 2 ^ 16 ∧ k.length = 33
  | .blockTemplate sig t => sig.length = 64 ∧ WFTemplate t
  | .winningNonce _ => True
  | .transactionDataRequest _ => True
  | .transactionData sig d => sig.length = 64 ∧ WFTxData d
  | .coinbasePrefixPostfix sig c => sig.length = 64 ∧ WFCpp c

/-- Field bounds under which a `PoolMessage` is representable on the
wire. -/
def WFPoolMsg : PoolMessage → Prop
  | .protocolSupport a b c => a < 2 ^ 16 ∧ b < 2 ^ 16 ∧ c < 2 ^ 16
  | .protocolVersion v k => v < 2 ^ 16 ∧ k.length = 33
  | .payoutInfo sig i => sig.length = 64 ∧ WFPayout i
  | .shareDifficulty d =>
    d.share_target.length = 32 ∧ d.weak_block_target.length = 32
  | .share _ => True
  | .weakBlock _ => True
  | .weakBlockStateReset => True

/-! ## Handler fixtures -/

/-- A signature predicate that accepts everything. -/
def sigAlways : SigPred := fun _ _ _ => true

/-- A job-provider handler state holding a template with id 1. -/
def cJP3 : JobProviderHandler :=
  { have_pool := false, stream := true, auth_key := some [1],
    cur_template := some (cTemplate 100), curPrefixPostfix := none,
    pending_tx_data_requests := [] }

/-- A job-provider handler state with no auth key remembered. -/
def cJP0 : JobProviderHandler :=
  { have_pool := false, stream := true, auth_key := none,
    cur_template := none, curPrefixPostfix := none,
    pending_tx_data_requests := [] }

/-! ## Pool selection -/

/-- A minimal payout info used in the proxy traces. -/
def cInfo9 : PoolPayoutInfo :=
  { timestamp := 1, self_payout_ratio_per_1000 := 0,
    coinbasePostfix := [], remaining_payout := [2], appended_outputs := [] }

/-- The install branch of the pool-update step of `main`
(`src/main.rs:745--765`), taken when the skip guard does not fire. -/
def poolInstall (s : JobInfoState) (i : Nat) (info : PoolPayoutInfo)
    (diff : Option PoolDifficulty) : JobInfoState :=
  match mergeJobPool s.payout_script s.cur_job (some (info, diff)) with
  | some _ =>
    { s with cur_pool := some (info, diff), cur_pool_source := some i }
  | none =>
    match s.cur_job with
    | none =>
      { s with cur_pool := some (info, diff), cur_pool_source := some i }
    | some _ => s

/-- A proxy state with pool 0 active and connected, used to witness the
skip guard. -/
def cS9 : JobInfoState :=
  { payout_script := [1], cur_job := none,
    cur_pool := some (cInfo9, none), cur_pool_source := some 0,
    pools_connected := [true, true] }

/-! ## Theorems -/

theorem leBytes_length (n v : Nat) : (leBytes n v).length = n := by
  induction n generalizing v with
  | zero => rfl
  | succ n ih => simp [leBytes, ih]

theorem fromLEBytes_leBytes (n v : Nat) :
    fromLEBytes (leBytes n v) = v % 2 ^ (8 * n) := by
  induction n generalizing v with
  | zero => simp [leBytes, fromLEBytes, Nat.mod_one]
  | succ n ih =>
    simp only [leBytes, fromLEBytes, List.foldr] at *
    rw [ih]
    have h : 2 ^ (8 * (n + 1)) = 256 * 2 ^ (8 * n) := by
      rw [Nat.mul_succ, pow_add]; norm_num; ring
    rw [h, Nat.mod_mul]

theorem bindRd {α β : Type} (m : Rd α) (f : α → Rd β) (total : Nat)
    (s : List Nat) : (m >>= f) total s =
      match m total s with
      | .needMore => .needMore
      | .invalid => .invalid
      | .ok a s' => f a total s' := rfl

theorem bind_ok {α β : Type} {m : Rd α} {f : α → Rd β} {total : Nat}
    {s s' : List Nat} {a : α} (h : m total s = .ok a s') :
    (m >>= f) total s = f a total s' := by
  rw [bindRd, h]

theorem pureRd {α : Type} (a : α) (total : Nat) (s : List Nat) :
    (pure a : Rd α) total s = .ok a s := rfl

theorem byte1_cons (x : Nat) (l : List Nat) : byte1 (x :: l) = x := rfl

theorem readB_exact {n : Nat} {bs : List Nat} {total : Nat} {rest : List Nat}
    (h : bs.length = n) : readB n total (bs ++ rest) = .ok bs rest := by
  have hlen : ¬ (bs ++ rest).length < n := by
    simp only [List.length_append]; omega
  have htake : (bs ++ rest).take n = bs := by rw [← h]; exact List.take_left bs rest
  have hdrop : (bs ++ rest).drop n = rest := by rw [← h]; exact List.drop_left bs rest
  unfold readB
  rw [if_neg hlen, htake, hdrop]

theorem guardLen_pass {n total : Nat} (s : List Nat) (h : n ≤ total) :
    guardLen n total s = .ok () s := by
  unfold guardLen
  rw [if_neg (by omega)]

theorem fromLE_lt (n v : Nat) (h : v < 2 ^ (8 * n)) :
    fromLEBytes (leBytes n v) = v := by
  rw [fromLEBytes_leBytes]; exact Nat.mod_eq_of_lt h

theorem readB_one {x : Nat} {total : Nat} {rest : List Nat} :
    readB 1 total ([x] ++ rest) = .ok [x] rest := readB_exact rfl

theorem pok_readCount {α : Type} {p : Rd α} {l : List α} {s : α → List Nat}
    (h : ∀ x ∈ l, POk p (s x) x 0) :
    POk (readCount l.length p) ((l.map s).flatten) l 0 := by
  induction l with
  | nil => intro total rest _; simp [readCount, pureRd]
  | cons x xs ih =>
    intro total rest _
    have hx := h x (List.mem_cons_self x xs) total ((xs.map s).flatten ++ rest)
      (Nat.zero_le _)
    have hxs := ih (fun y hy => h y (List.mem_cons_of_mem x hy)) total rest
      (Nat.zero_le _)
    simp only [List.length_cons, readCount, List.map_cons, List.flatten_cons,
      List.append_assoc, bind_ok hx, bind_ok hxs, pureRd]

theorem pok_txOut (o : TxOut) (hv : o.value < 2 ^ 64)
    (hs : o.script_pubkey.length < 2 ^ 16) :
    POk pTxOut (encodeTxOut o) o 0 := by
  obtain ⟨v, sp⟩ := o
  intro total rest _
  have e1 : fromLEBytes (leBytes 8 v) = v := fromLE_lt 8 v (by norm_num at hv ⊢; omega)
  have e2 : fromLEBytes (leBytes 2 sp.length) = sp.length :=
    fromLE_lt 2 sp.length (by norm_num at hs ⊢; omega)
  simp only [pTxOut, encodeTxOut, List.append_assoc,
    bind_ok (readB_exact (leBytes_length 8 v)),
    bind_ok (readB_exact (leBytes_length 2 sp.length)), e2,
    bind_ok (readB_exact (rfl : sp.length = sp.length)), pureRd, e1]

theorem pok_workSupport (a b c : Nat) (ha : a < 2 ^ 16) (hb : b < 2 ^ 16)
    (hc : c < 2 ^ 16) :
    POk pWorkSupport (leBytes 2 a ++ leBytes 2 b ++ leBytes 2 c)
      (.protocolSupport a b c) 0 := by
  intro total rest _
  simp only [pWorkSupport, List.append_assoc,
    bind_ok (readB_exact (leBytes_length 2 a)),
    bind_ok (readB_exact (leBytes_length 2 b)),
    bind_ok (readB_exact (leBytes_length 2 c)), pureRd,
    fromLE_lt 2 a (by norm_num at ha ⊢; omega),
    fromLE_lt 2 b (by norm_num at hb ⊢; omega),
    fromLE_lt 2 c (by norm_num at hc ⊢; omega)]

theorem pok_workTemplate (sig : List Nat) (t : BlockTemplate)
    (hs : sig.length = 64) (hWF : WFTemplate t) :
    POk pWorkTemplate (sig ++ encodeTemplateUnsigned t)
      (.blockTemplate sig t) 171 := by
  obtain ⟨tid, tgt, hver, prev, htime, hnbits, rhss, cvr, cver, cp, cis, outs,
    clk⟩ := t
  obtain ⟨h1, h2, h3, h4, h5, h6, h7, h8, h9, h10, h11, h12, h13, h14, h15⟩ := hWF
  simp only at h1 h2 h3 h4 h5 h6 h7 h8 h9 h10 h11 h12 h13 h14 h15
  intro total rest hml
  have hrh : POk (readCount rhss.length (readB 32)) rhss.flatten rhss 0 := by
    have hp := pok_readCount (p := readB 32) (s := fun x => x) (l := rhss)
      (fun x hx => fun tt rr _ => readB_exact (h8 x hx))
    simpa using hp
  have houts : POk (readCount outs.length pTxOut)
      ((outs.map encodeTxOut).flatten) outs 0 :=
    pok_readCount (fun o ho => pok_txOut o (h14 o ho).1 (h14 o ho).2)
  simp only [pWorkTemplate, encodeTemplateUnsigned, List.append_assoc,
    bind_ok (guardLen_pass _ hml),
    bind_ok (readB_exact hs),
    bind_ok (readB_exact (leBytes_length 8 tid)),
    bind_ok (readB_exact h2),
    bind_ok (readB_exact (leBytes_length 4 hver)),
    bind_ok (readB_exact h4),
    bind_ok (readB_exact (leBytes_length 4 htime)),
    bind_ok (readB_exact (leBytes_length 4 hnbits)),
    bind_ok readB_one, byte1_cons, Nat.mod_eq_of_lt (show rhss.length < 256 by omega),
    if_neg (show ¬ 15 < rhss.length by omega),
    bind_ok (hrh total _ (Nat.zero_le _)),
    bind_ok (readB_exact (leBytes_length 8 cvr)),
    bind_ok (readB_exact (leBytes_length 4 cver)),
    Nat.mod_eq_of_lt (show cp.length < 256 by omega),
    if_neg (show ¬ 100 < cp.length by omega),
    bind_ok (readB_exact (rfl : cp.length = cp.length)),
    bind_ok (readB_exact (leBytes_length 4 cis)),
    Nat.mod_eq_of_lt (show outs.length < 256 by omega),
    bind_ok (houts total _ (Nat.zero_le _)),
    bind_ok (readB_exact (leBytes_length 4 clk)),
    pureRd,
    fromLE_lt 8 tid (by norm_num at h1 ⊢; omega),
    fromLE_lt 4 hver (by norm_num at h3 ⊢; omega),
    fromLE_lt 4 htime (by norm_num at h5 ⊢; omega),
    fromLE_lt 4 hnbits (by norm_num at h6 ⊢; omega),
    fromLE_lt 8 cvr (by norm_num at h9 ⊢; omega),
    fromLE_lt 4 cver (by norm_num at h10 ⊢; omega),
    fromLE_lt 4 cis (by norm_num at h12 ⊢; omega),
    fromLE_lt 4 clk (by norm_num at h15 ⊢; omega)]

theorem pok_workVersion (v : Nat) (k : List Nat) (hv : v < 2 ^ 16)
    (hk : k.length = 33) :
    POk pWorkVersion (leBytes 2 v ++ k) (.protocolVersion v k) 0 := by
  intro total rest _
  simp only [pWorkVersion, List.append_assoc,
    bind_ok (readB_exact (leBytes_length 2 v)),
    bind_ok (readB_exact hk), pureRd,
    fromLE_lt 2 v (by norm_num at hv ⊢; omega)]

theorem pok_txBytes (tx : List Nat) (h : tx.length < 2 ^ 32) :
    POk pTxBytes (leBytes 4 tx.length ++ tx) tx 0 := by
  intro total rest _
  simp only [pTxBytes, List.append_assoc,
    bind_ok (readB_exact (leBytes_length 4 tx.length)),
    fromLE_lt 4 tx.length (by norm_num at h ⊢; omega),
    bind_ok (readB_exact (rfl : tx.length = tx.length)), pureRd]

theorem pok_workTxData (sig : List Nat) (d : TransactionData)
    (hs : sig.length = 64) (hWF : WFTxData d) :
    POk pWorkTxData (sig ++ encodeTxDataUnsigned d) (.transactionData sig d)
      (76 + d.transactions.length * 4) := by
  obtain ⟨tid, txs⟩ := d
  obtain ⟨h1, h2, h3⟩ := hWF
  simp only at h1 h2 h3
  intro total rest hml
  simp only at hml
  have htxs : POk (readCount txs.length pTxBytes)
      ((txs.map (fun tx => leBytes 4 tx.length ++ tx)).flatten) txs 0 :=
    pok_readCount (fun tx htx => pok_txBytes tx (h3 tx htx))
  simp only [pWorkTxData, encodeTxDataUnsigned, List.append_assoc,
    bind_ok (readB_exact hs),
    bind_ok (readB_exact (leBytes_length 8 tid)),
    bind_ok (readB_exact (leBytes_length 4 txs.length)),
    fromLE_lt 4 txs.length (by norm_num at h2 ⊢; omega),
    bind_ok (guardLen_pass _ (show 64 + 8 + 4 + txs.length * 4 ≤ total by omega)),
    bind_ok (htxs total _ (Nat.zero_le _)),
    pureRd, fromLE_lt 8 tid (by norm_num at h1 ⊢; omega)]

theorem pok_workCpp (sig : List Nat) (c : CoinbasePrefixPostfix)
    (hs : sig.length = 64) (hWF : WFCpp c) :
    POk pWorkCpp (sig ++ encodeCppUnsigned c)
      (.coinbasePrefixPostfix sig c) 0 := by
  obtain ⟨ts, pp⟩ := c
  obtain ⟨h1, h2⟩ := hWF
  simp only at h1 h2
  intro total rest _
  simp only [pWorkCpp, encodeCppUnsigned, List.append_assoc,
    bind_ok (readB_exact hs),
    bind_ok (readB_exact (leBytes_length 8 ts)),
    bind_ok readB_one, byte1_cons,
    Nat.mod_eq_of_lt (show pp.length < 256 by omega),
    if_neg (show ¬ 100 < pp.length by omega),
    bind_ok (readB_exact (rfl : pp.length = pp.length)),
    pureRd, fromLE_lt 8 ts (by norm_num at h1 ⊢; omega)]

theorem pok_poolSupport (a b c : Nat) (ha : a < 2 ^ 16) (hb : b < 2 ^ 16)
    (hc : c < 2 ^ 16) :
    POk pPoolSupport (leBytes 2 a ++ leBytes 2 b ++ leBytes 2 c)
      (.protocolSupport a b c) 0 := by
  intro total rest _
  simp only [pPoolSupport, List.append_assoc,
    bind_ok (readB_exact (leBytes_length 2 a)),
    bind_ok (readB_exact (leBytes_length 2 b)),
    bind_ok (readB_exact (leBytes_length 2 c)), pureRd,
    fromLE_lt 2 a (by norm_num at ha ⊢; omega),
    fromLE_lt 2 b (by norm_num at hb ⊢; omega),
    fromLE_lt 2 c (by norm_num at hc ⊢; omega)]

theorem pok_poolVersion (v : Nat) (k : List Nat) (hv : v < 2 ^ 16)
    (hk : k.length = 33) :
    POk pPoolVersion (leBytes 2 v ++ k) (.protocolVersion v k) 0 := by
  intro total rest _
  simp only [pPoolVersion, List.append_assoc,
    bind_ok (readB_exact (leBytes_length 2 v)),
    bind_ok (readB_exact hk), pureRd,
    fromLE_lt 2 v (by norm_num at hv ⊢; omega)]

theorem pok_poolPayout (sig : List Nat) (i : PoolPayoutInfo)
    (hs : sig.length = 64) (hWF : WFPayout i) :
    POk pPoolPayout (sig ++ encodePayoutInfoUnsigned i)
      (.payoutInfo sig i) 0 := by
  obtain ⟨ts, ratio, cpost, script, outs⟩ := i
  obtain ⟨h1, h2, h3, h4, h5, h6⟩ := hWF
  simp only at h1 h2 h3 h4 h5 h6
  intro total rest _
  have houts : POk (readCount outs.length pTxOut)
      ((outs.map encodeTxOut).flatten) outs 0 :=
    pok_readCount (fun o ho => pok_txOut o (h6 o ho).1 (h6 o ho).2)
  simp only [pPoolPayout, encodePayoutInfoUnsigned, List.append_assoc,
    bind_ok (readB_exact hs),
    bind_ok (readB_exact (leBytes_length 8 ts)),
    bind_ok (readB_exact (leBytes_length 2 ratio)),
    bind_ok readB_one, byte1_cons,
    Nat.mod_eq_of_lt (show cpost.length < 256 by omega),
    bind_ok (readB_exact (rfl : cpost.length = cpost.length)),
    bind_ok (readB_exact (leBytes_length 2 script.length)),
    fromLE_lt 2 script.length (by norm_num at h4 ⊢; omega),
    bind_ok (readB_exact (rfl : script.length = script.length)),
    Nat.mod_eq_of_lt (show outs.length < 256 by omega),
    bind_ok (houts total _ (Nat.zero_le _)),
    pureRd, fromLE_lt 8 ts (by norm_num at h1 ⊢; omega),
    fromLE_lt 2 ratio (by norm_num at h2 ⊢; omega)]

theorem pok_poolDifficulty (d : PoolDifficulty) (h1 : d.share_target.length = 32)
    (h2 : d.weak_block_target.length = 32) :
    POk pPoolDifficulty (d.share_target ++ d.weak_block_target)
      (.shareDifficulty d) 0 := by
  obtain ⟨st, wt⟩ := d
  simp only at h1 h2
  intro total rest _
  simp only [pPoolDifficulty, List.append_assoc,
    bind_ok (readB_exact h1), bind_ok (readB_exact h2), pureRd]

/-- Dispatch lemma: a tag body that consumes its whole region turns
into a `complete` result for the framed buffer. -/
theorem runTag_complete {α : Type} {p : Rd α} {bs : List Nat} {a : α}
    {ml : Nat} (h : POk p bs a ml) (t : Nat) (hml : ml ≤ bs.length + 1) :
    runTag p (t :: bs) = .complete a (bs.length + 1) := by
  have h0 := h (bs.length + 1) [] (by simpa using hml)
  rw [List.append_nil] at h0
  simp [runTag, h0]

/-! ## Round trips: decode after encode, per implemented variant -/

theorem rt_workSupport (a b c : Nat) (ha : a < 2 ^ 16) (hb : b < 2 ^ 16)
    (hc : c < 2 ^ 16) :
    decodeWork (encodeWorkMsg (.protocolSupport a b c)) =
      .complete (.protocolSupport a b c)
        (encodeWorkMsg (.protocolSupport a b c)).length := by
  have h := runTag_complete (pok_workSupport a b c ha hb hc) 1 (by simp)
  simpa [encodeWorkMsg, decodeWork, List.length_append, leBytes_length] using h

theorem rt_workVersion (v : Nat) (k : List Nat) (hv : v < 2 ^ 16)
    (hk : k.length = 33) :
    decodeWork (encodeWorkMsg (.protocolVersion v k)) =
      .complete (.protocolVersion v k)
        (encodeWorkMsg (.protocolVersion v k)).length := by
  have h := runTag_complete (pok_workVersion v k hv hk) 2 (by simp)
  simpa [encodeWorkMsg, decodeWork, List.length_append, leBytes_length] using h

theorem rt_workTemplate (sig : List Nat) (t : BlockTemplate)
    (hs : sig.length = 64) (hWF : WFTemplate t) :
    decodeWork (encodeWorkMsg (.blockTemplate sig t)) =
      .complete (.blockTemplate sig t)
        (encodeWorkMsg (.blockTemplate sig t)).length := by
  have hml : 171 ≤ (sig ++ encodeTemplateUnsigned t).length + 1 := by
    obtain ⟨-, h2, -, h4, -⟩ := hWF
    simp [encodeTemplateUnsigned, List.length_append, leBytes_length, hs, h2, h4]
    omega
  have h := runTag_complete (pok_workTemplate sig t hs hWF) 3 hml
  simpa [encodeWorkMsg, decodeWork, List.length_append] using h

theorem rt_workTxData (sig : List Nat) (d : TransactionData)
    (hs : sig.length = 64) (hWF : WFTxData d) :
    decodeWork (encodeWorkMsg (.transactionData sig d)) =
      .complete (.transactionData sig d)
        (encodeWorkMsg (.transactionData sig d)).length := by
  have hlow : d.transactions.length * 4 ≤
      ((d.transactions.map (fun tx => leBytes 4 tx.length ++ tx)).flatten).length := by
    induction d.transactions with
    | nil => simp
    | cons tx txs ih =>
      simp only [List.map_cons, List.flatten_cons, List.length_append,
        List.length_cons, leBytes_length] at ih ⊢
      omega
  have hml : 76 + d.transactions.length * 4 ≤
      (sig ++ encodeTxDataUnsigned d).length + 1 := by
    simp only [encodeTxDataUnsigned, List.length_append, leBytes_length, hs]
    omega
  have h := runTag_complete (pok_workTxData sig d hs hWF) 6 hml
  simpa [encodeWorkMsg, decodeWork, List.length_append] using h

theorem rt_workCpp (sig : List Nat) (c : CoinbasePrefixPostfix)
    (hs : sig.length = 64) (hWF : WFCpp c) :
    decodeWork (encodeWorkMsg (.coinbasePrefixPostfix sig c)) =
      .complete (.coinbasePrefixPostfix sig c)
        (encodeWorkMsg (.coinbasePrefixPostfix sig c)).length := by
  have h := runTag_complete (pok_workCpp sig c hs hWF) 7 (by simp)
  simpa [encodeWorkMsg, decodeWork, List.length_append] using h

theorem rt_poolSupport (a b c : Nat) (ha : a < 2 ^ 16) (hb : b < 2 ^ 16)
    (hc : c < 2 ^ 16) :
    decodePool (encodePoolMsg (.protocolSupport a b c)) =
      .complete (.protocolSupport a b c)
        (encodePoolMsg (.protocolSupport a b c)).length := by
  have h := runTag_complete (pok_poolSupport a b c ha hb hc) 1 (by simp)
  simpa [encodePoolMsg, decodePool, List.length_append, leBytes_length] using h

theorem rt_poolVersion (v : Nat) (k : List Nat) (hv : v < 2 ^ 16)
    (hk : k.length = 33) :
    decodePool (encodePoolMsg (.protocolVersion v k)) =
      .complete (.protocolVersion v k)
        (encodePoolMsg (.protocolVersion v k)).length := by
  have h := runTag_complete (pok_poolVersion v k hv hk) 2 (by simp)
  simpa [encodePoolMsg, decodePool, List.length_append, leBytes_length] using h

theorem rt_poolPayout (sig : List Nat) (i : PoolPayoutInfo)
    (hs : sig.length = 64) (hWF : WFPayout i) :
    decodePool (encodePoolMsg (.payoutInfo sig i)) =
      .complete (.payoutInfo sig i)
        (encodePoolMsg (.payoutInfo sig i)).length := by
  have h := runTag_complete (pok_poolPayout sig i hs hWF) 3 (by simp)
  simpa [encodePoolMsg, decodePool, List.length_append] using h

theorem rt_poolDifficulty (d : PoolDifficulty)
    (h1 : d.share_target.length = 32) (h2 : d.weak_block_target.length = 32) :
    decodePool (encodePoolMsg (.shareDifficulty d)) =
      .complete (.shareDifficulty d)
        (encodePoolMsg (.shareDifficulty d)).length := by
  have h := runTag_complete (pok_poolDifficulty d h1 h2) 4 (by simp)
  simpa [encodePoolMsg, decodePool, List.length_append, h1, h2] using h

theorem rt_poolReset :
    decodePool (encodePoolMsg .weakBlockStateReset) =
      .complete .weakBlockStateReset
        (encodePoolMsg .weakBlockStateReset).length := rfl

theorem rt_workNonce (n : WinningNonce) :
    decodeWork (encodeWorkMsg (.winningNonce n)) = .needMore := rfl

theorem rt_workTxReq (id : Nat) :
    decodeWork (encodeWorkMsg (.transactionDataRequest id)) = .needMore := rfl

theorem rt_poolShare (s : PoolShare) :
    decodePool (encodePoolMsg (.share s)) = .needMore := rfl

theorem rt_poolWeakBlock (w : WeakBlock) :
    decodePool (encodePoolMsg (.weakBlock w)) = .needMore := rfl

theorem good_pure {α : Type} (a : α) : GoodR (pure a : Rd α) := by
  constructor
  · intro total s b rest h
    cases h
    exact ⟨0, Nat.zero_le _, by simp⟩
  · intro total s total' j ht hj
    refine ⟨?_, ?_, ?_⟩
    · intro b rest h
      cases h
      constructor
      · intro _
        left
        simp [pureRd]
      · intro hlt
        simp at hlt
    · intro h; cases h
    · intro h; cases h

theorem good_fail {α : Type} : GoodR (failRd : Rd α) := by
  constructor
  · intro total s b rest h; cases h
  · intro total s total' j ht hj
    refine ⟨?_, ?_, ?_⟩
    · intro b rest h; cases h
    · intro _; left; rfl
    · intro h; cases h

theorem good_read (n : Nat) : GoodR (readB n) := by
  constructor
  · intro total s a rest h
    unfold readB at h
    by_cases hc : s.length < n
    · rw [if_pos hc] at h; cases h
    · rw [if_neg hc] at h
      cases h
      exact ⟨n, by omega, rfl⟩
  · intro total s total' j ht hj
    refine ⟨?_, ?_, ?_⟩
    · intro a rest h
      unfold readB at h
      by_cases hc : s.length < n
      · rw [if_pos hc] at h; cases h
      · rw [if_neg hc] at h
        cases h
        have hcons : s.length - (s.drop n).length = n := by
          simp [List.length_drop]; omega
        rw [hcons]
        constructor
        · intro hnj
          left
          have hlen : ¬ (s.take j).length < n := by
            simp [List.length_take]; omega
          unfold readB
          rw [if_neg hlen]
          have : (s.take j).take n = s.take n := by
            rw [List.take_take, Nat.min_def, if_pos hnj]
          rw [this]
        · intro hjn
          have hlen : (s.take j).length < n := by
            simp [List.length_take]; omega
          unfold readB
          rw [if_pos hlen]
    · intro h
      unfold readB at h
      by_cases hc : s.length < n
      · rw [if_pos hc] at h; cases h
      · rw [if_neg hc] at h; cases h
    · intro h
      unfold readB at h
      by_cases hc : s.length < n
      · have hlen : (s.take j).length < n := by
          simp [List.length_take]; omega
        unfold readB
        rw [if_pos hlen]
      · rw [if_neg hc] at h; cases h

theorem good_guard (n : Nat) : GoodR (guardLen n) := by
  constructor
  · intro total s a rest h
    unfold guardLen at h
    by_cases hc : total < n
    · rw [if_pos hc] at h; cases h
    · rw [if_neg hc] at h
      cases h
      exact ⟨0, Nat.zero_le _, by simp⟩
  · intro total s total' j ht hj
    refine ⟨?_, ?_, ?_⟩
    · intro a rest h
      unfold guardLen at h
      by_cases hc : total < n
      · rw [if_pos hc] at h; cases h
      · rw [if_neg hc] at h
        cases h
        constructor
        · intro _
          unfold guardLen
          by_cases hc' : total' < n
          · right; rw [if_pos hc']
          · left; rw [if_neg hc']; simp
        · intro hlt; simp at hlt
    · intro h
      unfold guardLen at h
      by_cases hc : total < n
      · rw [if_pos hc] at h; cases h
      · rw [if_neg hc] at h; cases h
    · intro h
      unfold guardLen at h
      by_cases hc : total < n
      · unfold guardLen
        rw [if_pos (by omega)]
      · rw [if_neg hc] at h; cases h

theorem good_bind {α β : Type} {m : Rd α} {k : α → Rd β}
    (hm : GoodR m) (hk : ∀ a, GoodR (k a)) : GoodR (m >>= k) := by
  obtain ⟨hmA, hmB⟩ := hm
  constructor
  · intro total s b rest h
    rw [bindRd] at h
    cases hp : m total s with
    | needMore => rw [hp] at h; cases h
    | invalid => rw [hp] at h; cases h
    | ok a mid =>
      rw [hp] at h
      obtain ⟨c1, hc1, hmid⟩ := hmA total s a mid hp
      obtain ⟨c2, hc2, hrest⟩ := (hk a).1 total mid b rest h
      refine ⟨c1 + c2, ?_, ?_⟩
      · subst hmid
        simp only [List.length_drop] at hc2
        omega
      · subst hmid hrest
        rw [List.drop_drop]
  · intro total s total' j ht hj
    refine ⟨?_, ?_, ?_⟩
    · intro b rest h
      rw [bindRd] at h
      cases hp : m total s with
      | needMore => rw [hp] at h; cases h
      | invalid => rw [hp] at h; cases h
      | ok a mid =>
        rw [hp] at h
        obtain ⟨c1, hc1, hmid⟩ := hmA total s a mid hp
        obtain ⟨c2, hc2, hrest⟩ := (hk a).1 total mid b rest h
        have hmidlen : mid.length = s.length - c1 := by
          subst hmid; simp [List.length_drop]
        have hrestlen : rest.length = mid.length - c2 := by
          subst hrest; simp [List.length_drop]
        have hcons1 : s.length - mid.length = c1 := by omega
        have hcons2 : mid.length - rest.length = c2 := by omega
        have hconsA : s.length - rest.length = c1 + c2 := by omega
        have hdt : (s.take j).drop c1 = mid.take (j - c1) := by
          subst hmid; rw [List.drop_take]
        constructor
        · intro hle
          rw [hconsA] at hle
          have hmain := ((hmB total s total' j ht hj).1 a mid hp).1
            (by omega)
          rcases hmain with hok | hnm
          · rw [hcons1] at hok
            have hkmain := (((hk a).2 total mid total' (j - c1) ht
              (by omega)).1 b rest h).1 (by omega)
            rcases hkmain with hok2 | hnm2
            · left
              rw [bindRd, hok, hdt]
              show k a total' (List.take (j - c1) mid) = _
              rw [hok2, hcons2, hconsA]
              congr 1
              rw [← List.drop_drop, hdt]
            · right
              rw [bindRd, hok, hdt]
              show k a total' (List.take (j - c1) mid) = _
              rw [hnm2]
          · right
            rw [bindRd, hnm]
        · intro hlt
          rw [hconsA] at hlt
          by_cases hc1j : c1 ≤ j
          · have hmain := ((hmB total s total' j ht hj).1 a mid hp).1
              (by omega)
            rcases hmain with hok | hnm
            · rw [hcons1] at hok
              have hkm := (((hk a).2 total mid total' (j - c1) ht
                (by omega)).1 b rest h).2 (by omega)
              rw [bindRd, hok, hdt]
              show k a total' (List.take (j - c1) mid) = _
              rw [hkm]
            · rw [bindRd, hnm]
          · have hmain := ((hmB total s total' j ht hj).1 a mid hp).2
              (by omega)
            rw [bindRd, hmain]
    · intro h
      rw [bindRd] at h
      cases hp : m total s with
      | needMore => rw [hp] at h; cases h
      | invalid =>
        rcases (hmB total s total' j ht hj).2.1 hp with hi | hn
        · left; rw [bindRd, hi]
        · right; rw [bindRd, hn]
      | ok a mid =>
        rw [hp] at h
        obtain ⟨c1, hc1, hmid⟩ := hmA total s a mid hp
        have hmidlen : mid.length = s.length - c1 := by
          subst hmid; simp [List.length_drop]
        have hcons1 : s.length - mid.length = c1 := by omega
        have hdt : (s.take j).drop c1 = mid.take (j - c1) := by
          subst hmid; rw [List.drop_take]
        by_cases hc1j : c1 ≤ j
        · have hmain := ((hmB total s total' j ht hj).1 a mid hp).1
            (by omega)
          rcases hmain with hok | hnm
          · rw [hcons1] at hok
            rcases ((hk a).2 total mid total' (j - c1) ht
              (by omega)).2.1 h with hi2 | hn2
            · left
              rw [bindRd, hok, hdt]
              show k a total' (List.take (j - c1) mid) = _
              rw [hi2]
            · right
              rw [bindRd, hok, hdt]
              show k a total' (List.take (j - c1) mid) = _
              rw [hn2]
          · right; rw [bindRd, hnm]
        · have hmain := ((hmB total s total' j ht hj).1 a mid hp).2
            (by omega)
          right; rw [bindRd, hmain]
    · intro h
      rw [bindRd] at h
      cases hp : m total s with
      | needMore =>
        rw [bindRd, (hmB total s total' j ht hj).2.2 hp]
      | invalid => rw [hp] at h; cases h
      | ok a mid =>
        rw [hp] at h
        obtain ⟨c1, hc1, hmid⟩ := hmA total s a mid hp
        have hmidlen : mid.length = s.length - c1 := by
          subst hmid; simp [List.length_drop]
        have hcons1 : s.length - mid.length = c1 := by omega
        have hdt : (s.take j).drop c1 = mid.take (j - c1) := by
          subst hmid; rw [List.drop_take]
        by_cases hc1j : c1 ≤ j
        · have hmain := ((hmB total s total' j ht hj).1 a mid hp).1
            (by omega)
          rcases hmain with hok | hnm
          · rw [hcons1] at hok
            rw [bindRd, hok, hdt]
            show k a total' (List.take (j - c1) mid) = _
            rw [((hk a).2 total mid total' (j - c1) ht (by omega)).2.2 h]
          · rw [bindRd, hnm]
        · have hmain := ((hmB total s total' j ht hj).1 a mid hp).2
            (by omega)
          rw [bindRd, hmain]

theorem good_ite {α : Type} (c : Prop) [Decidable c] {p q : Rd α}
    (hp : GoodR p) (hq : GoodR q) : GoodR (if c then p else q) := by
  by_cases h : c
  · rw [if_pos h]; exact hp
  · rw [if_neg h]; exact hq

theorem good_readCount {α : Type} (n : Nat) {p : Rd α} (hp : GoodR p) :
    GoodR (readCount n p) := by
  induction n with
  | zero => exact good_pure []
  | succ n ih =>
    unfold readCount
    exact good_bind hp (fun x => good_bind ih (fun xs => good_pure (x :: xs)))

theorem good_workSupport : GoodR pWorkSupport := by
  unfold pWorkSupport
  exact good_bind (good_read 2) fun a =>
    good_bind (good_read 2) fun b =>
    good_bind (good_read 2) fun c => good_pure _

theorem good_workVersion : GoodR pWorkVersion := by
  unfold pWorkVersion
  exact good_bind (good_read 2) fun v =>
    good_bind (good_read 33) fun k => good_pure _

theorem good_txOut : GoodR pTxOut := by
  unfold pTxOut
  exact good_bind (good_read 8) fun v =>
    good_bind (good_read 2) fun sl =>
    good_bind (good_read (fromLEBytes sl)) fun sb => good_pure _

theorem good_workTemplate : GoodR pWorkTemplate := by
  unfold pWorkTemplate
  refine good_bind (good_guard 171) fun _ => ?_
  refine good_bind (good_read 64) fun sig => ?_
  refine good_bind (good_read 8) fun tid => ?_
  refine good_bind (good_read 32) fun tgt => ?_
  refine good_bind (good_read 4) fun hver => ?_
  refine good_bind (good_read 32) fun prev => ?_
  refine good_bind (good_read 4) fun htime => ?_
  refine good_bind (good_read 4) fun hnbits => ?_
  refine good_bind (good_read 1) fun mc => ?_
  refine good_ite _ good_fail ?_
  refine good_bind (good_readCount _ (good_read 32)) fun rhss => ?_
  refine good_bind (good_read 8) fun cvr => ?_
  refine good_bind (good_read 4) fun cver => ?_
  refine good_bind (good_read 1) fun cpl => ?_
  refine good_ite _ good_fail ?_
  refine good_bind (good_read _) fun cp => ?_
  refine good_bind (good_read 4) fun cis => ?_
  refine good_bind (good_read 1) fun oc => ?_
  refine good_bind (good_readCount _ good_txOut) fun outs => ?_
  refine good_bind (good_read 4) fun clk => ?_
  exact good_pure _

theorem good_txBytes : GoodR pTxBytes := by
  unfold pTxBytes
  exact good_bind (good_read 4) fun lb =>
    good_bind (good_read (fromLEBytes lb)) fun tb => good_pure _

theorem good_workTxData : GoodR pWorkTxData := by
  unfold pWorkTxData
  refine good_bind (good_read 64) fun sig => ?_
  refine good_bind (good_read 8) fun tid => ?_
  refine good_bind (good_read 4) fun cnt => ?_
  refine good_bind (good_guard _) fun _ => ?_
  refine good_bind (good_readCount _ good_txBytes) fun txs => ?_
  exact good_pure _

theorem good_workCpp : GoodR pWorkCpp := by
  unfold pWorkCpp
  refine good_bind (good_read 64) fun sig => ?_
  refine good_bind (good_read 8) fun ts => ?_
  refine good_bind (good_read 1) fun lb => ?_
  refine good_ite _ good_fail ?_
  refine good_bind (good_read _) fun tb => ?_
  exact good_pure _

theorem good_poolSupport : GoodR pPoolSupport := by
  unfold pPoolSupport
  exact good_bind (good_read 2) fun a =>
    good_bind (good_read 2) fun b =>
    good_bind (good_read 2) fun c => good_pure _

theorem good_poolVersion : GoodR pPoolVersion := by
  unfold pPoolVersion
  exact good_bind (good_read 2) fun v =>
    good_bind (good_read 33) fun k => good_pure _

theorem good_poolPayout : GoodR pPoolPayout := by
  unfold pPoolPayout
  refine good_bind (good_read 64) fun sig => ?_
  refine good_bind (good_read 8) fun ts => ?_
  refine good_bind (good_read 2) fun ratio => ?_
  refine good_bind (good_read 1) fun cpl => ?_
  refine good_bind (good_read _) fun cpost => ?_
  refine good_bind (good_read 2) fun sl => ?_
  refine good_bind (good_read _) fun script => ?_
  refine good_bind (good_read 1) fun oc => ?_
  refine good_bind (good_readCount _ good_txOut) fun outs => ?_
  exact good_pure _

theorem good_poolDifficulty : GoodR pPoolDifficulty := by
  unfold pPoolDifficulty
  exact good_bind (good_read 32) fun st =>
    good_bind (good_read 32) fun wt => good_pure _

/-- A framed tag body that completed by consuming the entire buffer
reports NeedMore on every shorter truncation. -/
theorem runTag_prefix {α : Type} {p : Rd α} (hg : GoodR p) {t : Nat}
    {r : List Nat} {msg : α}
    (h : runTag p (t :: r) = .complete msg (r.length + 1))
    {k : Nat} (hk : k < r.length) :
    runTag p (t :: r.take k) = .needMore := by
  have h' : (match p (r.length + 1) r with
      | DStep.ok a rest => DecodeResult.complete a (r.length + 1 - rest.length)
      | DStep.needMore => DecodeResult.needMore
      | DStep.invalid => DecodeResult.invalid) =
      DecodeResult.complete msg (r.length + 1) := h
  cases hp : p (r.length + 1) r with
  | needMore => rw [hp] at h'; cases h'
  | invalid => rw [hp] at h'; cases h'
  | ok a rest =>
    rw [hp] at h'
    have hrl : rest.length = 0 := by
      obtain ⟨c, hc, hrest⟩ := hg.1 _ _ _ _ hp
      have h2 : rest.length = r.length - c := by subst hrest; simp
      injection h' with ha hc2
      omega
    have hnm := ((hg.2 (r.length + 1) r (k + 1) k (by omega) (by omega)).1
      a rest hp).2 (by omega)
    have hlen : (r.take k).length = k := by simp [List.length_take]; omega
    show (match p ((r.take k).length + 1) (r.take k) with
      | DStep.ok a rest =>
        DecodeResult.complete a ((r.take k).length + 1 - rest.length)
      | DStep.needMore => DecodeResult.needMore
      | DStep.invalid => DecodeResult.invalid) = DecodeResult.needMore
    rw [hlen, hnm]

/-- Work decoder: if a buffer decodes to Complete consuming exactly the
whole buffer, then every strict prefix yields NeedMore (and hence the
read cursor is untouched). -/
theorem decodeWork_prefix (buf : List Nat) (msg : WorkMessage)
    (h : decodeWork buf = .complete msg buf.length)
    (k : Nat) (hk : k < buf.length) :
    decodeWork (buf.take k) = .needMore := by
  match buf, k with
  | [], _ => simp at hk
  | t :: r, 0 => rfl
  | 0 :: r, k + 1 => exact DecodeResult.noConfusion h
  | 1 :: r, k + 1 =>
    rw [List.take_succ_cons]
    exact runTag_prefix good_workSupport h (by simpa using hk)
  | 2 :: r, k + 1 =>
    rw [List.take_succ_cons]
    exact runTag_prefix good_workVersion h (by simpa using hk)
  | 3 :: r, k + 1 =>
    rw [List.take_succ_cons]
    exact runTag_prefix good_workTemplate h (by simpa using hk)
  | 4 :: r, k + 1 => exact DecodeResult.noConfusion h
  | 5 :: r, k + 1 => exact DecodeResult.noConfusion h
  | 6 :: r, k + 1 =>
    rw [List.take_succ_cons]
    exact runTag_prefix good_workTxData h (by simpa using hk)
  | 7 :: r, k + 1 =>
    rw [List.take_succ_cons]
    exact runTag_prefix good_workCpp h (by simpa using hk)
  | (n + 8) :: r, k + 1 => exact DecodeResult.noConfusion h

/-- Pool decoder: same prefix property as `decodeWork_prefix`. -/
theorem decodePool_prefix (buf : List Nat) (msg : PoolMessage)
    (h : decodePool buf = .complete msg buf.length)
    (k : Nat) (hk : k < buf.length) :
    decodePool (buf.take k) = .needMore := by
  match buf, k with
  | [], _ => simp at hk
  | t :: r, 0 => rfl
  | 0 :: r, k + 1 => exact DecodeResult.noConfusion h
  | 1 :: r, k + 1 =>
    rw [List.take_succ_cons]
    exact runTag_prefix good_poolSupport h (by simpa using hk)
  | 2 :: r, k + 1 =>
    rw [List.take_succ_cons]
    exact runTag_prefix good_poolVersion h (by simpa using hk)
  | 3 :: r, k + 1 =>
    rw [List.take_succ_cons]
    exact runTag_prefix good_poolPayout h (by simpa using hk)
  | 4 :: r, k + 1 =>
    rw [List.take_succ_cons]
    exact runTag_prefix good_poolDifficulty h (by simpa using hk)
  | 5 :: r, k + 1 => exact DecodeResult.noConfusion h
  | 6 :: r, k + 1 => exact DecodeResult.noConfusion h
  | 7 :: r, k + 1 =>
    have hlen : r.length = 0 := by
      injection h with hm hc
      omega
    simp at hk
    omega
  | (n + 8) :: r, k + 1 => exact DecodeResult.noConfusion h

theorem extendJobPrefix_cvr (t : BlockTemplate)
    (cpp : Option CoinbasePrefixPostfix) :
    (extendJobPrefix t cpp).coinbase_value_remaining =
      t.coinbase_value_remaining := by
  cases cpp <;> rfl

theorem extendJobPrefix_outs (t : BlockTemplate)
    (cpp : Option CoinbasePrefixPostfix) :
    (extendJobPrefix t cpp).appended_coinbase_outputs =
      t.appended_coinbase_outputs := by
  cases cpp <;> rfl

theorem extendJobPrefix_target (t : BlockTemplate)
    (cpp : Option CoinbasePrefixPostfix) :
    (extendJobPrefix t cpp).target = t.target := by
  cases cpp <;> rfl

theorem mergeFinish_some_outs (script : List Nat) (tpl : BlockTemplate)
    (info : PoolPayoutInfo) (diff : Option PoolDifficulty) (v : Int)
    (r : Nat) :
    (mergeFinish script tpl (some (info, diff)) v r).appended_coinbase_outputs =
      TxOut.mk (castU64 (Int.tdiv (wrapI64 (v * (r : Int))) 1000)) script ::
      TxOut.mk (castU64 (wrapI64 (v - Int.tdiv (wrapI64 (v * (r : Int))) 1000)))
        info.remaining_payout ::
      (info.appended_outputs ++ tpl.appended_coinbase_outputs) := by
  cases diff <;> rfl

theorem mergeFinish_some_target (script : List Nat) (tpl : BlockTemplate)
    (info : PoolPayoutInfo) (pd : PoolDifficulty) (v : Int) (r : Nat) :
    (mergeFinish script tpl (some (info, some pd)) v r).target =
      min_le (min_le tpl.target pd.share_target) pd.weak_block_target := rfl

theorem mergeFinish_none_outs (script : List Nat) (tpl : BlockTemplate)
    (v : Int) (r : Nat) :
    (mergeFinish script tpl none v r).appended_coinbase_outputs =
      TxOut.mk (castU64 (Int.tdiv (wrapI64 (v * (r : Int))) 1000)) script ::
        tpl.appended_coinbase_outputs := rfl

theorem mergeFinish_none_target (script : List Nat) (tpl : BlockTemplate)
    (v : Int) (r : Nat) : (mergeFinish script tpl none v r).target =
      tpl.target := rfl

/-- Inversion of a successful merge with a pool present. -/
theorem mergeJobPool_some_pool {script : List Nat} {t : BlockTemplate}
    {cpp : Option CoinbasePrefixPostfix} {info : PoolPayoutInfo}
    {diff : Option PoolDifficulty} {w : BlockTemplate}
    (h : mergeJobPool script (some (t, cpp)) (some (info, diff)) = some w) :
    ∃ cv0 cvo, addOutputs 0 t.appended_coinbase_outputs = some cv0 ∧
      addOutputs cv0 info.appended_outputs = some cvo ∧
      ¬ wrapI64 (toI64 t.coinbase_value_remaining - toI64 cvo) < 0 ∧
      w = mergeFinish script (extendJobPrefix t cpp) (some (info, diff))
        (wrapI64 (toI64 t.coinbase_value_remaining - toI64 cvo))
        info.self_payout_ratio_per_1000 := by
  simp only [mergeJobPool, extendJobPrefix_cvr] at h
  cases h1 : addOutputs 0 t.appended_coinbase_outputs with
  | none => simp only [h1] at h; cases h
  | some cv0 =>
    simp only [h1] at h
    cases h2 : addOutputs cv0 info.appended_outputs with
    | none => simp only [h2, Option.map] at h; cases h
    | some cvo =>
      simp only [h2, Option.map] at h
      by_cases hneg :
          wrapI64 (toI64 t.coinbase_value_remaining - toI64 cvo) < 0
      · rw [if_pos hneg] at h; cases h
      · rw [if_neg hneg] at h
        injection h with hw
        refine ⟨cv0, cvo, ?_, ?_, hneg, hw.symm⟩
        · rfl
        · exact h2

/-- Inversion of a successful merge with no pool: the ratio used is 0. -/
theorem mergeJobPool_some_noPool {script : List Nat} {t : BlockTemplate}
    {cpp : Option CoinbasePrefixPostfix} {w : BlockTemplate}
    (h : mergeJobPool script (some (t, cpp)) none = some w) :
    ∃ cv0, addOutputs 0 t.appended_coinbase_outputs = some cv0 ∧
      ¬ wrapI64 (toI64 t.coinbase_value_remaining - toI64 cv0) < 0 ∧
      w = mergeFinish script (extendJobPrefix t cpp) none
        (wrapI64 (toI64 t.coinbase_value_remaining - toI64 cv0)) 0 := by
  simp only [mergeJobPool, extendJobPrefix_cvr] at h
  cases h1 : addOutputs 0 t.appended_coinbase_outputs with
  | none => simp only [h1] at h; cases h
  | some cv0 =>
    simp only [h1] at h
    by_cases hneg : wrapI64 (toI64 t.coinbase_value_remaining - toI64 cv0) < 0
    · rw [if_pos hneg] at h; cases h
    · rw [if_neg hneg] at h
      injection h with hw
      refine ⟨cv0, ?_, hneg, hw.symm⟩
      rfl

theorem addOutputs_le {acc : Nat} {l : List TxOut} {s : Nat}
    (h : addOutputs acc l = some s) :
    ∀ o ∈ l, o.value ≤ 21000000 * 100000000 := by
  induction l generalizing acc with
  | nil => simp
  | cons o rest ih =>
    intro o' ho'
    unfold addOutputs at h
    by_cases hv : o.value > 21000000 * 100000000
    · rw [if_pos hv] at h; cases h
    · rw [if_neg hv] at h
      rcases List.mem_cons.mp ho' with rfl | hm
      · omega
      · exact ih h o' hm

theorem addOutputs_eq {acc : Nat} {l : List TxOut} {s : Nat}
    (h : addOutputs acc l = some s)
    (hb : acc + outputValueSum l < 2 ^ 64) :
    s = acc + outputValueSum l := by
  induction l generalizing acc with
  | nil =>
    unfold addOutputs at h
    cases h
    simp [outputValueSum]
  | cons o rest ih =>
    have hsum : outputValueSum (o :: rest) = o.value + outputValueSum rest := by
      simp [outputValueSum]
    unfold addOutputs at h
    by_cases hv : o.value > 21000000 * 100000000
    · rw [if_pos hv] at h; cases h
    · rw [if_neg hv] at h
      rw [hsum] at hb
      have hmod : (acc + o.value) % 2 ^ 64 = acc + o.value :=
        Nat.mod_eq_of_lt (by omega)
      rw [hmod] at h
      have := ih h (by omega)
      omega

theorem outputValueSum_le {l : List TxOut}
    (hv : ∀ o ∈ l, o.value ≤ 21000000 * 100000000) :
    outputValueSum l ≤ l.length * (21000000 * 100000000) := by
  induction l with
  | nil => simp [outputValueSum]
  | cons o rest ih =>
    have h1 := hv o (by simp)
    have h2 := ih (fun o' ho' => hv o' (by simp [ho']))
    simp only [outputValueSum, List.map_cons, List.sum_cons,
      List.length_cons] at h2 ⊢
    have h3 : (rest.length + 1) * (21000000 * 100000000) =
        rest.length * (21000000 * 100000000) + 21000000 * 100000000 := by ring
    omega

theorem wrapI64_eq {x : Int} (h1 : -(2 ^ 63) ≤ x) (h2 : x < 2 ^ 63) :
    wrapI64 x = x := by
  unfold wrapI64
  omega

theorem toI64_small {u : Nat} (h : u < 2 ^ 63) : toI64 u = u := by
  unfold toI64
  rw [if_pos h]

theorem castU64_ofNat (n : Nat) (h : n < 2 ^ 64) :
    castU64 ((n : Nat) : Int) = n := by
  unfold castU64
  omega

/-- Closed form of a successful pool merge under the wire bounds: the
constant outputs fit the remaining value and the appended output list
is operator output, pool remainder, pool appended outputs, then the
template's own appended outputs. -/
theorem merge_pool_form {script : List Nat} {t : BlockTemplate}
    {cpp : Option CoinbasePrefixPostfix} {info : PoolPayoutInfo}
    {diff : Option PoolDifficulty} {w : BlockTemplate}
    (h : mergeJobPool script (some (t, cpp)) (some (info, diff)) = some w)
    (hcvr : t.coinbase_value_remaining ≤ 21000000 * 100000000)
    (hl1 : t.appended_coinbase_outputs.length ≤ 255)
    (hl2 : info.appended_outputs.length ≤ 255) :
    cvoOf t info ≤ t.coinbase_value_remaining ∧
    w.appended_coinbase_outputs =
      TxOut.mk (castU64 (ourValueI t info)) script ::
      TxOut.mk (castU64 (wrapI64
        (((t.coinbase_value_remaining - cvoOf t info : Nat) : Int) -
          ourValueI t info))) info.remaining_payout ::
      (info.appended_outputs ++ t.appended_coinbase_outputs) := by
  obtain ⟨cv0, cvo, h1, h2, hneg, hw⟩ := mergeJobPool_some_pool h
  have hle1 := addOutputs_le h1
  have hle2 := addOutputs_le h2
  have hb1 : outputValueSum t.appended_coinbase_outputs ≤
      255 * (21000000 * 100000000) :=
    le_trans (outputValueSum_le hle1) (Nat.mul_le_mul_right _ hl1)
  have hb2 : outputValueSum info.appended_outputs ≤
      255 * (21000000 * 100000000) :=
    le_trans (outputValueSum_le hle2) (Nat.mul_le_mul_right _ hl2)
  have hcv0 : cv0 = outputValueSum t.appended_coinbase_outputs := by
    have := addOutputs_eq h1 (by omega)
    omega
  have hcvo : cvo = cvoOf t info := by
    have := addOutputs_eq h2 (by omega)
    unfold cvoOf
    omega
  have htoc : toI64 t.coinbase_value_remaining =
      (t.coinbase_value_remaining : Int) := toI64_small (by omega)
  have htoo : toI64 cvo = (cvo : Int) := toI64_small (by unfold cvoOf at hcvo; omega)
  have hvr : wrapI64 ((t.coinbase_value_remaining : Int) - (cvo : Int)) =
      (t.coinbase_value_remaining : Int) - (cvo : Int) :=
    wrapI64_eq (by unfold cvoOf at hcvo; omega) (by omega)
  rw [htoc, htoo, hvr] at hneg hw
  have hcle : cvoOf t info ≤ t.coinbase_value_remaining := by omega
  have hsub : ((t.coinbase_value_remaining - cvoOf t info : Nat) : Int) =
      (t.coinbase_value_remaining : Int) - (cvo : Int) := by
    rw [Nat.cast_sub hcle, hcvo]
  have heq : ourValueI t info =
      Int.tdiv (wrapI64 (((t.coinbase_value_remaining : Int) - (cvo : Int)) *
        (info.self_payout_ratio_per_1000 : Int))) 1000 := by
    unfold ourValueI
    rw [hsub]
  refine ⟨hcle, ?_⟩
  rw [hw, mergeFinish_some_outs, extendJobPrefix_outs, heq, hsub]

theorem min_le_val (a b : List Nat) :
    fromLEBytes (min_le a b) = min (fromLEBytes a) (fromLEBytes b) := by
  unfold min_le
  split <;> omega

theorem min_le_mem (a b : List Nat) : min_le a b = a ∨ min_le a b = b := by
  unfold min_le
  split
  · exact Or.inl rfl
  · exact Or.inr rfl

theorem outputValueSum_cons (o : TxOut) (l : List TxOut) :
    outputValueSum (o :: l) = o.value + outputValueSum l := by
  simp [outputValueSum]

theorem outputValueSum_append (l1 l2 : List TxOut) :
    outputValueSum (l1 ++ l2) = outputValueSum l1 + outputValueSum l2 := by
  simp [outputValueSum]

theorem castU64_negSmall {d : Nat} (h0 : 0 < d) (h1 : d ≤ 2 ^ 64) :
    castU64 (-(d : Int)) = 2 ^ 64 - d := by
  unfold castU64
  omega

/-- C6: when `merge_job_pool` runs with pool payout info and pool
difficulty present, the merged target is the `min_le`-fold of the
template target with the share target and then the weak-block target,
which is the minimum of the three under unsigned 256-bit little-endian
comparison (and is always one of the three). -/
theorem C6_target_lexmin (script : List Nat) (t : BlockTemplate)
    (cpp : Option CoinbasePrefixPostfix) (info : PoolPayoutInfo)
    (pd : PoolDifficulty) (w : BlockTemplate)
    (h : mergeJobPool script (some (t, cpp)) (some (info, some pd)) = some w) :
    w.target = min_le (min_le t.target pd.share_target) pd.weak_block_target ∧
    fromLEBytes w.target = min (fromLEBytes t.target)
      (min (fromLEBytes pd.share_target) (fromLEBytes pd.weak_block_target)) ∧
    (w.target = t.target ∨ w.target = pd.share_target ∨
      w.target = pd.weak_block_target) := by
  obtain ⟨cv0, cvo, h1, h2, hneg, hw⟩ := mergeJobPool_some_pool h
  have htgt : w.target =
      min_le (min_le t.target pd.share_target) pd.weak_block_target := by
    rw [hw, mergeFinish_some_target, extendJobPrefix_target]
  refine ⟨htgt, ?_, ?_⟩
  · rw [htgt, min_le_val, min_le_val]
    omega
  · rw [htgt]
    rcases min_le_mem (min_le t.target pd.share_target) pd.weak_block_target
      with hm | hm
    · rw [hm]
      rcases min_le_mem t.target pd.share_target with hm2 | hm2
      · exact Or.inl hm2
      · exact Or.inr (Or.inl hm2)
    · exact Or.inr (Or.inr hm)

/-- C6 witness: a concrete merge where the share target is the
strictest of the three, so the merged target equals it. -/
theorem C6_witness :
    mergeJobPool [9] (some (cTemplate 5000000000, none))
      (some (cInfo 250, some ⟨List.replicate 32 0, List.replicate 31 0 ++ [1]⟩)) =
      some cMergedC6 ∧
    cMergedC6.target = min_le (min_le (cTemplate 5000000000).target
      (List.replicate 32 0)) (List.replicate 31 0 ++ [1]) ∧
    fromLEBytes cMergedC6.target = min (fromLEBytes (cTemplate 5000000000).target)
      (min (fromLEBytes (List.replicate 32 0))
        (fromLEBytes (List.replicate 31 0 ++ [1]))) ∧
    (cMergedC6.target = (cTemplate 5000000000).target ∨
      cMergedC6.target = List.replicate 32 0 ∨
      cMergedC6.target = List.replicate 31 0 ++ [1]) :=
  ⟨by decide,
    C6_target_lexmin [9] (cTemplate 5000000000) none (cInfo 250)
      ⟨List.replicate 32 0, List.replicate 31 0 ++ [1]⟩ cMergedC6 (by decide)⟩

/-- C7 counterexample: with no pool payout info, the operator output
value is 0, not all of `value_remaining` (which is 5e9 here); the
claim that the operator takes all of the remaining value is false on
the code. -/
theorem C7_counterexample :
    (mergeJobPool [9] (some (cTemplate 5000000000, none)) none).map
      (fun w => w.appended_coinbase_outputs.map TxOut.value) = some [0] ∧
    (cTemplate 5000000000).coinbase_value_remaining = 5000000000 ∧
    (0 : Nat) ≠ 5000000000 := by decide

/-- C7 amended: with no pool payout info `merge_job_pool` uses
`self_ratio = 0`, so the operator output at index 0 has value
`⌊value_remaining * 0 / 1000⌋ = 0` (the remaining value is claimed by
no output), the rest of the outputs are the template's own appended
outputs, and the target is returned unchanged. -/
theorem C7_no_pool (script : List Nat) (t : BlockTemplate)
    (cpp : Option CoinbasePrefixPostfix) (w : BlockTemplate)
    (h : mergeJobPool script (some (t, cpp)) none = some w) :
    w.appended_coinbase_outputs =
      TxOut.mk 0 script :: t.appended_coinbase_outputs ∧
    w.target = t.target := by
  obtain ⟨cv0, h1, hneg, hw⟩ := mergeJobPool_some_noPool h
  constructor
  · rw [hw, mergeFinish_none_outs, extendJobPrefix_outs]
    have hz : wrapI64 (wrapI64 (toI64 t.coinbase_value_remaining - toI64 cv0) *
        (((0 : Nat) : Int))) = 0 := by
      norm_num
      unfold wrapI64
      norm_num
    rw [hz]
    rfl
  · rw [hw, mergeFinish_none_target, extendJobPrefix_target]

/-- C7 witness: the merge of the 5e9 template with no pool yields the
zero-valued operator output and the unchanged target. -/
theorem C7_witness :
    mergeJobPool [9] (some (cTemplate 5000000000, none)) none =
      some cMergedC7 ∧
    (cMergedC7.appended_coinbase_outputs =
      TxOut.mk 0 [9] :: (cTemplate 5000000000).appended_coinbase_outputs ∧
    cMergedC7.target = (cTemplate 5000000000).target) :=
  ⟨by decide,
    C7_no_pool [9] (cTemplate 5000000000) none cMergedC7 (by decide)⟩

/-- C1 counterexample: the claimed bound "sum of output values is at
most coinbase_value_remaining" fails on the code in two ways: with
`self_ratio = 1001` the pool remainder wraps through the `i64`-to-`u64`
cast (sum 18446744078709551616 on a 5e9 template), and with
`self_ratio = 1000` but `coinbase_value_remaining = 2^63 - 1` the `i64`
product wraps so the operator output itself becomes `2^64 - 1`. -/
theorem C1_counterexample :
    ((mergeJobPool [9] (some (cTemplate 5000000000, none))
        (some (cInfo 1001, none))).map
      (fun w => outputValueSum w.appended_coinbase_outputs) =
      some 18446744078709551616 ∧
      (cTemplate 5000000000).coinbase_value_remaining = 5000000000) ∧
    ((mergeJobPool [9] (some (cTemplate (2 ^ 63 - 1), none))
        (some (cInfo 1000, none))).map
      (fun w => outputValueSum w.appended_coinbase_outputs) =
      some 27670116110564327423 ∧
      (cTemplate (2 ^ 63 - 1)).coinbase_value_remaining = 2 ^ 63 - 1) := by
  decide

/-- C1 amended: under the wire-format bounds (`self_ratio ≤ 1000`,
`coinbase_value_remaining` at most 21e6 BTC in satoshi, at most 255
appended outputs on each side — without which the 64-bit arithmetic
wraps, see the counterexample) every merged template has the operator
output `⌊value_remaining * self_ratio / 1000⌋` at index 0, followed by
the pool remainder `value_remaining - our_value`, the pool appended
outputs and then the template appended outputs, and the total output
value equals `coinbase_value_remaining` (in particular is bounded by
it). -/
theorem C1_merge_outputs (script : List Nat) (t : BlockTemplate)
    (cpp : Option CoinbasePrefixPostfix) (info : PoolPayoutInfo)
    (diff : Option PoolDifficulty) (w : BlockTemplate)
    (h : mergeJobPool script (some (t, cpp)) (some (info, diff)) = some w)
    (hr : info.self_payout_ratio_per_1000 ≤ 1000)
    (hcvr : t.coinbase_value_remaining ≤ 21000000 * 100000000)
    (hl1 : t.appended_coinbase_outputs.length ≤ 255)
    (hl2 : info.appended_outputs.length ≤ 255) :
    cvoOf t info ≤ t.coinbase_value_remaining ∧
    w.appended_coinbase_outputs =
      TxOut.mk ((t.coinbase_value_remaining - cvoOf t info) *
          info.self_payout_ratio_per_1000 / 1000) script ::
      TxOut.mk ((t.coinbase_value_remaining - cvoOf t info) -
          (t.coinbase_value_remaining - cvoOf t info) *
            info.self_payout_ratio_per_1000 / 1000) info.remaining_payout ::
      (info.appended_outputs ++ t.appended_coinbase_outputs) ∧
    outputValueSum w.appended_coinbase_outputs =
      t.coinbase_value_remaining ∧
    outputValueSum w.appended_coinbase_outputs ≤
      t.coinbase_value_remaining := by
  obtain ⟨hcle, hform⟩ := merge_pool_form h hcvr hl1 hl2
  have hv255 : t.coinbase_value_remaining - cvoOf t info ≤
      21000000 * 100000000 := by omega
  have hmul : (t.coinbase_value_remaining - cvoOf t info) *
      info.self_payout_ratio_per_1000 < 2 ^ 63 := by
    have := Nat.mul_le_mul hv255 hr
    omega
  have hcast : (((t.coinbase_value_remaining - cvoOf t info : Nat) : Int) *
      (info.self_payout_ratio_per_1000 : Int)) =
      (((t.coinbase_value_remaining - cvoOf t info) *
        info.self_payout_ratio_per_1000 : Nat) : Int) := by
    push_cast
    ring
  have hwrap : wrapI64 (((t.coinbase_value_remaining - cvoOf t info :
      Nat) : Int) * (info.self_payout_ratio_per_1000 : Int)) =
      (((t.coinbase_value_remaining - cvoOf t info) *
        info.self_payout_ratio_per_1000 : Nat) : Int) := by
    rw [hcast]
    exact wrapI64_eq (by omega) (by omega)
  have htdiv : ourValueI t info =
      (((t.coinbase_value_remaining - cvoOf t info) *
        info.self_payout_ratio_per_1000 / 1000 : Nat) : Int) := by
    unfold ourValueI
    rw [hwrap]
    rfl
  have hourle : (t.coinbase_value_remaining - cvoOf t info) *
      info.self_payout_ratio_per_1000 / 1000 ≤
      t.coinbase_value_remaining - cvoOf t info := by
    have h1 : (t.coinbase_value_remaining - cvoOf t info) *
        info.self_payout_ratio_per_1000 ≤
        (t.coinbase_value_remaining - cvoOf t info) * 1000 :=
      Nat.mul_le_mul_left _ hr
    have h2 := Nat.div_le_div_right (c := 1000) h1
    simpa [Nat.mul_div_cancel] using h2
  have hcast1 : castU64 (ourValueI t info) =
      (t.coinbase_value_remaining - cvoOf t info) *
        info.self_payout_ratio_per_1000 / 1000 := by
    rw [htdiv]
    exact castU64_ofNat _ (by omega)
  have hsub2 : (((t.coinbase_value_remaining - cvoOf t info : Nat) : Int) -
      ourValueI t info) =
      (((t.coinbase_value_remaining - cvoOf t info) -
        (t.coinbase_value_remaining - cvoOf t info) *
          info.self_payout_ratio_per_1000 / 1000 : Nat) : Int) := by
    rw [htdiv, ← Nat.cast_sub hourle]
  have hcast2 : castU64 (wrapI64
      (((t.coinbase_value_remaining - cvoOf t info : Nat) : Int) -
        ourValueI t info)) =
      (t.coinbase_value_remaining - cvoOf t info) -
        (t.coinbase_value_remaining - cvoOf t info) *
          info.self_payout_ratio_per_1000 / 1000 := by
    rw [hsub2, wrapI64_eq (by omega) (by omega)]
    exact castU64_ofNat _ (by omega)
  have hlist : w.appended_coinbase_outputs =
      TxOut.mk ((t.coinbase_value_remaining - cvoOf t info) *
          info.self_payout_ratio_per_1000 / 1000) script ::
      TxOut.mk ((t.coinbase_value_remaining - cvoOf t info) -
          (t.coinbase_value_remaining - cvoOf t info) *
            info.self_payout_ratio_per_1000 / 1000) info.remaining_payout ::
      (info.appended_outputs ++ t.appended_coinbase_outputs) := by
    rw [hform, hcast1, hcast2]
  have hdef : cvoOf t info = outputValueSum t.appended_coinbase_outputs +
      outputValueSum info.appended_outputs := rfl
  refine ⟨hcle, hlist, ?_, ?_⟩
  · rw [hlist, outputValueSum_cons, outputValueSum_cons,
      outputValueSum_append]
    simp only
    omega
  · rw [hlist, outputValueSum_cons, outputValueSum_cons,
      outputValueSum_append]
    simp only
    omega

/-- C1 witness: the merge-arithmetic scenario of the spec, ratio 250 on
a 5e9 template, instantiating the amended statement. -/
theorem C1_witness :
    (mergeJobPool [9] (some (cTemplate 5000000000, none))
        (some (cInfo 250, none)) = some cMergedC6 ∧
      (cInfo 250).self_payout_ratio_per_1000 ≤ 1000) ∧
    (cvoOf (cTemplate 5000000000) (cInfo 250) ≤
        (cTemplate 5000000000).coinbase_value_remaining ∧
      cMergedC6.appended_coinbase_outputs =
        TxOut.mk (((cTemplate 5000000000).coinbase_value_remaining -
            cvoOf (cTemplate 5000000000) (cInfo 250)) *
            (cInfo 250).self_payout_ratio_per_1000 / 1000) [9] ::
        TxOut.mk (((cTemplate 5000000000).coinbase_value_remaining -
            cvoOf (cTemplate 5000000000) (cInfo 250)) -
          ((cTemplate 5000000000).coinbase_value_remaining -
            cvoOf (cTemplate 5000000000) (cInfo 250)) *
            (cInfo 250).self_payout_ratio_per_1000 / 1000)
          (cInfo 250).remaining_payout ::
        ((cInfo 250).appended_outputs ++
          (cTemplate 5000000000).appended_coinbase_outputs) ∧
      outputValueSum cMergedC6.appended_coinbase_outputs =
        (cTemplate 5000000000).coinbase_value_remaining ∧
      outputValueSum cMergedC6.appended_coinbase_outputs ≤
        (cTemplate 5000000000).coinbase_value_remaining) :=
  ⟨⟨by decide, by decide⟩,
    C1_merge_outputs [9] (cTemplate 5000000000) none (cInfo 250) none
      cMergedC6 (by decide) (by decide) (by decide) (by decide) (by decide)⟩

/-- C10 counterexample: the clause "for a ratio r > 1000 with
value_remaining > 0, our_value exceeds value_remaining" is false for
small remainders: with ratio 1001 and remaining value 999 the operator
output is exactly 999 (no overshoot, no wrap, no output above the
remaining value). -/
theorem C10_counterexample :
    (mergeJobPool [9] (some (cTemplate 999, none))
        (some (cInfo 1001, none))).map
      (fun w => w.appended_coinbase_outputs.map TxOut.value) =
      some [999, 0] ∧
    1000 < (cInfo 1001).self_payout_ratio_per_1000 ∧
    (cTemplate 999).coinbase_value_remaining = 999 ∧
    ¬ (999 : Nat) < 999 := by decide

/-- C10 amended: the pool decoder accepts every u16
`self_payout_ratio_per_1000` without a 0..=1000 bound; for a ratio `r`
with `1000 < r < 2^16` the operator value
`⌊value_remaining * r / 1000⌋` strictly exceeds `value_remaining`
exactly when `value_remaining * (r - 1000) ≥ 1000` (the converse
direction is the fourth conjunct), and then — absent `i64` wrap in the
product (`value_remaining * r < 2^63`) — the pool output is the `u64`
cast of the negative difference, `2^64 - (our_value -
value_remaining)`, which exceeds `coinbase_value_remaining`.  This
also bites below `value_remaining = 1000`: concrete merged coinbases
for `value_remaining = 10000, ratio 2000` and for
`value_remaining = 999, ratio 2000` are included. -/
theorem C10_ratio_unchecked :
    (∀ r : Nat, r < 2 ^ 16 →
      decodePool (encodePoolMsg (.payoutInfo c64sig (cInfo r))) =
        .complete (.payoutInfo c64sig (cInfo r))
          (encodePoolMsg (.payoutInfo c64sig (cInfo r))).length) ∧
    (∀ (script : List Nat) (t : BlockTemplate)
        (cpp : Option CoinbasePrefixPostfix) (info : PoolPayoutInfo)
        (diff : Option PoolDifficulty) (w : BlockTemplate),
      mergeJobPool script (some (t, cpp)) (some (info, diff)) = some w →
      1000 < info.self_payout_ratio_per_1000 →
      t.coinbase_value_remaining ≤ 21000000 * 100000000 →
      t.appended_coinbase_outputs.length ≤ 255 →
      info.appended_outputs.length ≤ 255 →
      1000 ≤ (t.coinbase_value_remaining - cvoOf t info) *
        (info.self_payout_ratio_per_1000 - 1000) →
      (t.coinbase_value_remaining - cvoOf t info) *
          info.self_payout_ratio_per_1000 < 2 ^ 63 →
      (t.coinbase_value_remaining - cvoOf t info) <
        (t.coinbase_value_remaining - cvoOf t info) *
          info.self_payout_ratio_per_1000 / 1000 ∧
      w.appended_coinbase_outputs.map TxOut.value =
        ((t.coinbase_value_remaining - cvoOf t info) *
            info.self_payout_ratio_per_1000 / 1000) ::
        (2 ^ 64 - ((t.coinbase_value_remaining - cvoOf t info) *
              info.self_payout_ratio_per_1000 / 1000 -
            (t.coinbase_value_remaining - cvoOf t info))) ::
        ((info.appended_outputs ++ t.appended_coinbase_outputs).map
          TxOut.value) ∧
      t.coinbase_value_remaining <
        2 ^ 64 - ((t.coinbase_value_remaining - cvoOf t info) *
            info.self_payout_ratio_per_1000 / 1000 -
          (t.coinbase_value_remaining - cvoOf t info))) ∧
    (∀ (t : BlockTemplate) (info : PoolPayoutInfo),
      1000 < info.self_payout_ratio_per_1000 →
      (t.coinbase_value_remaining - cvoOf t info) *
          (info.self_payout_ratio_per_1000 - 1000) < 1000 →
      (t.coinbase_value_remaining - cvoOf t info) *
          info.self_payout_ratio_per_1000 / 1000 ≤
        t.coinbase_value_remaining - cvoOf t info) ∧
    ((mergeJobPool [9] (some (cTemplate 10000, none))
        (some (cInfo 2000, none))).map
      (fun w => w.appended_coinbase_outputs.map TxOut.value) =
      some [20000, 2 ^ 64 - 10000] ∧
      (cTemplate 10000).coinbase_value_remaining < 2 ^ 64 - 10000) ∧
    ((mergeJobPool [9] (some (cTemplate 999, none))
        (some (cInfo 2000, none))).map
      (fun w => w.appended_coinbase_outputs.map TxOut.value) =
      some [1998, 2 ^ 64 - 999] ∧
      (cTemplate 999).coinbase_value_remaining < 2 ^ 64 - 999) := by
  refine ⟨?_, ?_, ?_, by decide, by decide⟩
  · intro r hr
    refine rt_poolPayout c64sig (cInfo r) (by decide) ?_
    unfold WFPayout
    refine ⟨by simp [cInfo], by simpa [cInfo] using hr, by simp [cInfo],
      by simp [cInfo], by simp [cInfo], by simp [cInfo]⟩
  · intro script t cpp info diff w h hr hcvr hl1 hl2 hv hprod
    obtain ⟨hcle, hform⟩ := merge_pool_form h hcvr hl1 hl2
    have hcast : (((t.coinbase_value_remaining - cvoOf t info : Nat) : Int) *
        (info.self_payout_ratio_per_1000 : Int)) =
        (((t.coinbase_value_remaining - cvoOf t info) *
          info.self_payout_ratio_per_1000 : Nat) : Int) := by
      push_cast
      ring
    have hwrap : wrapI64 (((t.coinbase_value_remaining - cvoOf t info :
        Nat) : Int) * (info.self_payout_ratio_per_1000 : Int)) =
        (((t.coinbase_value_remaining - cvoOf t info) *
          info.self_payout_ratio_per_1000 : Nat) : Int) := by
      rw [hcast]
      exact wrapI64_eq (by omega) (by omega)
    have htdiv : ourValueI t info =
        (((t.coinbase_value_remaining - cvoOf t info) *
          info.self_payout_ratio_per_1000 / 1000 : Nat) : Int) := by
      unfold ourValueI
      rw [hwrap]
      rfl
    have hgt : (t.coinbase_value_remaining - cvoOf t info) <
        (t.coinbase_value_remaining - cvoOf t info) *
          info.self_payout_ratio_per_1000 / 1000 := by
      have h2 : (t.coinbase_value_remaining - cvoOf t info) + 1 ≤
          (t.coinbase_value_remaining - cvoOf t info) *
            info.self_payout_ratio_per_1000 / 1000 := by
        rw [Nat.le_div_iff_mul_le (by norm_num : 0 < 1000)]
        have hsplit : (t.coinbase_value_remaining - cvoOf t info) *
              (info.self_payout_ratio_per_1000 - 1000) +
            (t.coinbase_value_remaining - cvoOf t info) * 1000 =
            (t.coinbase_value_remaining - cvoOf t info) *
              info.self_payout_ratio_per_1000 := by
          have e : info.self_payout_ratio_per_1000 - 1000 + 1000 =
              info.self_payout_ratio_per_1000 := by omega
          rw [← Nat.mul_add, e]
        omega
      omega
    have hourlt : (t.coinbase_value_remaining - cvoOf t info) *
        info.self_payout_ratio_per_1000 / 1000 < 2 ^ 63 := by
      have := Nat.div_le_self ((t.coinbase_value_remaining - cvoOf t info) *
        info.self_payout_ratio_per_1000) 1000
      omega
    have hsub2 : (((t.coinbase_value_remaining - cvoOf t info : Nat) : Int) -
        ourValueI t info) =
        -((((t.coinbase_value_remaining - cvoOf t info) *
            info.self_payout_ratio_per_1000 / 1000 -
          (t.coinbase_value_remaining - cvoOf t info) : Nat) : Int)) := by
      rw [htdiv, Nat.cast_sub (le_of_lt hgt)]
      ring
    have hcast2 : castU64 (wrapI64
        (((t.coinbase_value_remaining - cvoOf t info : Nat) : Int) -
          ourValueI t info)) =
        2 ^ 64 - ((t.coinbase_value_remaining - cvoOf t info) *
            info.self_payout_ratio_per_1000 / 1000 -
          (t.coinbase_value_remaining - cvoOf t info)) := by
      rw [hsub2, wrapI64_eq (by omega) (by omega)]
      exact castU64_negSmall (by omega) (by omega)
    have hcast1 : castU64 (ourValueI t info) =
        (t.coinbase_value_remaining - cvoOf t info) *
          info.self_payout_ratio_per_1000 / 1000 := by
      rw [htdiv]
      exact castU64_ofNat _ (by omega)
    refine ⟨hgt, ?_, by omega⟩
    rw [hform]
    simp only [List.map_cons, hcast1, hcast2]
  · intro t info hr hlt
    have h2 : (t.coinbase_value_remaining - cvoOf t info) *
        info.self_payout_ratio_per_1000 / 1000 <
        (t.coinbase_value_remaining - cvoOf t info) + 1 := by
      rw [Nat.div_lt_iff_lt_mul (by norm_num : 0 < 1000)]
      have hsplit : (t.coinbase_value_remaining - cvoOf t info) *
            (info.self_payout_ratio_per_1000 - 1000) +
          (t.coinbase_value_remaining - cvoOf t info) * 1000 =
          (t.coinbase_value_remaining - cvoOf t info) *
            info.self_payout_ratio_per_1000 := by
        have e : info.self_payout_ratio_per_1000 - 1000 + 1000 =
            info.self_payout_ratio_per_1000 := by omega
        rw [← Nat.mul_add, e]
      omega
    omega

/-- C10 witness: the decoder accepts the maximal u16 ratio 65535. -/
theorem C10_witness :
    (65535 : Nat) < 2 ^ 16 ∧
    decodePool (encodePoolMsg (.payoutInfo c64sig (cInfo 65535))) =
      .complete (.payoutInfo c64sig (cInfo 65535))
        (encodePoolMsg (.payoutInfo c64sig (cInfo 65535))).length :=
  ⟨by decide, C10_ratio_unchecked.1 65535 (by decide)⟩

/-- C2 counterexample: decoding is not a left inverse of encoding for
all variants: the decoders for Work tags 4 (WinningNonce) and 5
(TransactionDataRequest) and Pool tags 5 (Share) and 6 (WeakBlock) are
unimplemented (`TODO` in the source) and return NeedMore on their own
encodings, never Complete. -/
theorem C2_counterexample :
    decodeWork (encodeWorkMsg (.transactionDataRequest 0)) =
      DecodeResult.needMore ∧
    decodeWork (encodeWorkMsg (.winningNonce cNonce)) =
      DecodeResult.needMore ∧
    decodePool (encodePoolMsg (.share cShare)) = DecodeResult.needMore ∧
    decodePool (encodePoolMsg (.weakBlock cWB)) = DecodeResult.needMore :=
  ⟨rfl, rfl, rfl, rfl⟩

/-- C2 amended: for the variants whose decoders are implemented (Work
tags 1, 2, 3, 6, 7 and Pool tags 1, 2, 3, 4, 7), and messages whose
fields satisfy the wire-format bounds (integers within their widths,
32-byte hashes, 64-byte signatures, 33-byte keys, list lengths within
their u8/u16/u32 length fields, `merkle_rhss ≤ 15` and coinbase
prefix/postfix within the encoded bound), decoding the encoding
returns Complete with the original message, consuming exactly the
encoding; the remaining variants (Work 4 and 5, Pool 5 and 6) decode
to NeedMore on their own encodings. -/
theorem C2_roundtrip :
    (∀ a b c : Nat, a < 2 ^ 16 → b < 2 ^ 16 → c < 2 ^ 16 →
      decodeWork (encodeWorkMsg (.protocolSupport a b c)) =
        .complete (.protocolSupport a b c)
          (encodeWorkMsg (.protocolSupport a b c)).length) ∧
    (∀ (v : Nat) (k : List Nat), v < 2 ^ 16 → k.length = 33 →
      decodeWork (encodeWorkMsg (.protocolVersion v k)) =
        .complete (.protocolVersion v k)
          (encodeWorkMsg (.protocolVersion v k)).length) ∧
    (∀ (sig : List Nat) (t : BlockTemplate), sig.length = 64 →
      WFTemplate t →
      decodeWork (encodeWorkMsg (.blockTemplate sig t)) =
        .complete (.blockTemplate sig t)
          (encodeWorkMsg (.blockTemplate sig t)).length) ∧
    (∀ (sig : List Nat) (d : TransactionData), sig.length = 64 →
      WFTxData d →
      decodeWork (encodeWorkMsg (.transactionData sig d)) =
        .complete (.transactionData sig d)
          (encodeWorkMsg (.transactionData sig d)).length) ∧
    (∀ (sig : List Nat) (c : CoinbasePrefixPostfix), sig.length = 64 →
      WFCpp c →
      decodeWork (encodeWorkMsg (.coinbasePrefixPostfix sig c)) =
        .complete (.coinbasePrefixPostfix sig c)
          (encodeWorkMsg (.coinbasePrefixPostfix sig c)).length) ∧
    (∀ n : WinningNonce,
      decodeWork (encodeWorkMsg (.winningNonce n)) = .needMore) ∧
    (∀ id : Nat,
      decodeWork (encodeWorkMsg (.transactionDataRequest id)) = .needMore) ∧
    (∀ a b c : Nat, a < 2 ^ 16 → b < 2 ^ 16 → c < 2 ^ 16 →
      decodePool (encodePoolMsg (.protocolSupport a b c)) =
        .complete (.protocolSupport a b c)
          (encodePoolMsg (.protocolSupport a b c)).length) ∧
    (∀ (v : Nat) (k : List Nat), v < 2 ^ 16 → k.length = 33 →
      decodePool (encodePoolMsg (.protocolVersion v k)) =
        .complete (.protocolVersion v k)
          (encodePoolMsg (.protocolVersion v k)).length) ∧
    (∀ (sig : List Nat) (i : PoolPayoutInfo), sig.length = 64 →
      WFPayout i →
      decodePool (encodePoolMsg (.payoutInfo sig i)) =
        .complete (.payoutInfo sig i)
          (encodePoolMsg (.payoutInfo sig i)).length) ∧
    (∀ d : PoolDifficulty, d.share_target.length = 32 →
      d.weak_block_target.length = 32 →
      decodePool (encodePoolMsg (.shareDifficulty d)) =
        .complete (.shareDifficulty d)
          (encodePoolMsg (.shareDifficulty d)).length) ∧
    (decodePool (encodePoolMsg .weakBlockStateReset) =
      .complete .weakBlockStateReset
        (encodePoolMsg .weakBlockStateReset).length) ∧
    (∀ s : PoolShare, decodePool (encodePoolMsg (.share s)) = .needMore) ∧
    (∀ w : WeakBlock, decodePool (encodePoolMsg (.weakBlock w)) = .needMore) :=
  ⟨rt_workSupport, rt_workVersion, rt_workTemplate, rt_workTxData,
    rt_workCpp, rt_workNonce, rt_workTxReq, rt_poolSupport, rt_poolVersion,
    rt_poolPayout, rt_poolDifficulty, rt_poolReset, rt_poolShare,
    rt_poolWeakBlock⟩

/-- C2 witness: a populated BlockTemplate message round-trips. -/
theorem C2_witness :
    (c64sig.length = 64 ∧ WFTemplate cT2) ∧
    decodeWork (encodeWorkMsg (.blockTemplate c64sig cT2)) =
      .complete (.blockTemplate c64sig cT2)
        (encodeWorkMsg (.blockTemplate c64sig cT2)).length :=
  ⟨⟨by decide, by unfold WFTemplate WFOut; decide⟩,
    C2_roundtrip.2.2.1 c64sig cT2 (by decide)
      (by unfold WFTemplate WFOut; decide)⟩

/-! ## Generic-buffer evaluation lemmas for the decoders -/

/-- Reading `n` bytes succeeds whenever `n` bytes remain. -/
theorem readB_ge {n : Nat} {total : Nat} {s : List Nat} (h : n ≤ s.length) :
    readB n total s = .ok (s.take n) (s.drop n) := by
  unfold readB
  rw [if_neg (by omega)]

/-- The first decoded byte of a one-byte read at offset `n`. -/
theorem byte1_drop_take {l : List Nat} {n : Nat} (h : n < l.length) :
    byte1 ((l.drop n).take 1) = l.getD n 0 := by
  induction l generalizing n with
  | nil => simp at h
  | cons x xs ih =>
    cases n with
    | zero => rfl
    | succ n =>
      simp only [List.drop_succ_cons, List.getD_cons_succ]
      exact ih (by simpa using h)

/-- Repeated fixed-size reads succeed whenever enough bytes remain. -/
theorem readCount_readB_ok {n k : Nat} {total : Nat} {s : List Nat}
    (h : n * k ≤ s.length) :
    ∃ xs, readCount n (readB k) total s = .ok xs (s.drop (n * k)) := by
  induction n generalizing s with
  | zero => exact ⟨[], by simp [readCount, pureRd]⟩
  | succ n ih =>
    have hk : k ≤ s.length := by
      have : (n + 1) * k = n * k + k := by ring
      omega
    have hrec : n * k ≤ (s.drop k).length := by
      simp only [List.length_drop]
      have : (n + 1) * k = n * k + k := by ring
      omega
    obtain ⟨xs, hxs⟩ := ih hrec
    refine ⟨s.take k :: xs, ?_⟩
    simp only [readCount, bind_ok (readB_ge hk), bind_ok hxs, pureRd,
      List.drop_drop]
    have : k + n * k = (n + 1) * k := by ring
    rw [this]

/-- C5 counterexample: the claim says a `PoolMessage::PayoutInfo` with
`coinbase_postfix_len > 100` is rejected as Invalid, but
`PoolMsgFramer::decode` (`src/msg_framing.rs:752`) reads the postfix
length byte without any bound check, so a 101-byte postfix decodes to
Complete. -/
theorem C5_counterexample :
    100 < cInfo101.coinbasePostfix.length ∧
    decodePool (encodePoolMsg (.payoutInfo c64sig cInfo101)) =
      .complete (.payoutInfo c64sig cInfo101)
        (encodePoolMsg (.payoutInfo c64sig cInfo101)).length :=
  ⟨by decide,
   rt_poolPayout c64sig cInfo101 (by decide)
     ⟨by decide, by decide, by decide, by decide, by decide,
      by simp [cInfo101]⟩⟩

/-- C5 (amended): the Work-side length bounds are enforced — a
BlockTemplate whose merkle count byte exceeds 15 or whose coinbase
prefix length byte exceeds 100 is Invalid, and a CoinbasePrefixPostfix
whose length byte exceeds 100 is Invalid — but the Pool-side
PayoutInfo postfix length is NOT checked: a 102-byte postfix decodes
to Complete. -/
theorem C5_length_invalid :
    (∀ rest : List Nat, 170 ≤ rest.length → 15 < rest.getD 148 0 →
      decodeWork (3 :: rest) = .invalid) ∧
    (∀ (rest : List Nat) (c : Nat), 170 ≤ rest.length →
      rest.getD 148 0 = c → c ≤ 15 → 162 + 32 * c ≤ rest.length →
      100 < rest.getD (161 + 32 * c) 0 →
      decodeWork (3 :: rest) = .invalid) ∧
    (∀ rest : List Nat, 73 ≤ rest.length → 100 < rest.getD 72 0 →
      decodeWork (7 :: rest) = .invalid) ∧
    (cInfo102.coinbasePostfix.length = 102 ∧
      decodePool (encodePoolMsg (.payoutInfo c64sig cInfo102)) =
        .complete (.payoutInfo c64sig cInfo102)
          (encodePoolMsg (.payoutInfo c64sig cInfo102)).length) := by
  refine ⟨?_, ?_, ?_, by decide,
    rt_poolPayout c64sig cInfo102 (by decide)
      ⟨by decide, by decide, by decide, by decide, by decide,
       by simp [cInfo102]⟩⟩
  · intro rest hlen hb
    have hrun : pWorkTemplate ((3 :: rest).length) rest = .invalid := by
      simp only [List.length_cons, pWorkTemplate,
        bind_ok (guardLen_pass rest (show 171 ≤ rest.length + 1 by omega)),
        bind_ok (readB_ge (show 64 ≤ rest.length by omega)),
        List.drop_drop,
        bind_ok (readB_ge (show 8 ≤ (rest.drop 64).length by
          simp [List.length_drop]; omega)),
        bind_ok (readB_ge (show 32 ≤ (rest.drop 72).length by
          simp [List.length_drop]; omega)),
        bind_ok (readB_ge (show 4 ≤ (rest.drop 104).length by
          simp [List.length_drop]; omega)),
        bind_ok (readB_ge (show 32 ≤ (rest.drop 108).length by
          simp [List.length_drop]; omega)),
        bind_ok (readB_ge (show 4 ≤ (rest.drop 140).length by
          simp [List.length_drop]; omega)),
        bind_ok (readB_ge (show 4 ≤ (rest.drop 144).length by
          simp [List.length_drop]; omega)),
        bind_ok (readB_ge (show 1 ≤ (rest.drop 148).length by
          simp [List.length_drop]; omega)),
        byte1_drop_take (show 148 < rest.length by omega),
        if_pos hb]
      rfl
    show runTag pWorkTemplate (3 :: rest) = .invalid
    unfold runTag
    have hdrop : (3 :: rest).drop 1 = rest := rfl
    rw [hdrop, hrun]
  · intro rest c hlen hc hc15 hlen2 hb
    obtain ⟨xs, hxs⟩ := @readCount_readB_ok c 32 (rest.length + 1)
      (rest.drop 149) (by simp only [List.length_drop]; omega)
    have hrun : pWorkTemplate ((3 :: rest).length) rest = .invalid := by
      simp only [List.length_cons, pWorkTemplate,
        bind_ok (guardLen_pass rest (show 171 ≤ rest.length + 1 by omega)),
        bind_ok (readB_ge (show 64 ≤ rest.length by omega)),
        List.drop_drop,
        bind_ok (readB_ge (show 8 ≤ (rest.drop 64).length by
          simp [List.length_drop]; omega)),
        bind_ok (readB_ge (show 32 ≤ (rest.drop 72).length by
          simp [List.length_drop]; omega)),
        bind_ok (readB_ge (show 4 ≤ (rest.drop 104).length by
          simp [List.length_drop]; omega)),
        bind_ok (readB_ge (show 32 ≤ (rest.drop 108).length by
          simp [List.length_drop]; omega)),
        bind_ok (readB_ge (show 4 ≤ (rest.drop 140).length by
          simp [List.length_drop]; omega)),
        bind_ok (readB_ge (show 4 ≤ (rest.drop 144).length by
          simp [List.length_drop]; omega)),
        bind_ok (readB_ge (show 1 ≤ (rest.drop 148).length by
          simp [List.length_drop]; omega)),
        byte1_drop_take (show 148 < rest.length by omega), hc,
        if_neg (show ¬ 15 < c by omega),
        bind_ok hxs,
        bind_ok (readB_ge (show 8 ≤ (rest.drop (149 + c * 32)).length by
          simp only [List.length_drop]; omega)),
        bind_ok (readB_ge
          (show 4 ≤ (rest.drop (149 + c * 32 + 8)).length by
            simp only [List.length_drop]; omega)),
        bind_ok (readB_ge
          (show 1 ≤ (rest.drop (149 + c * 32 + 8 + 4)).length by
            simp only [List.length_drop]; omega)),
        byte1_drop_take (show 149 + c * 32 + 8 + 4 < rest.length by omega),
        if_pos (show 100 < rest.getD (149 + c * 32 + 8 + 4) 0 by
          have he : 149 + c * 32 + 8 + 4 = 161 + 32 * c := by ring
          rw [he]; exact hb)]
      rfl
    show runTag pWorkTemplate (3 :: rest) = .invalid
    unfold runTag
    have hdrop : (3 :: rest).drop 1 = rest := rfl
    rw [hdrop, hrun]
  · intro rest hlen hb
    have hrun : pWorkCpp ((7 :: rest).length) rest = .invalid := by
      simp only [List.length_cons, pWorkCpp,
        bind_ok (readB_ge (show 64 ≤ rest.length by omega)),
        List.drop_drop,
        bind_ok (readB_ge (show 8 ≤ (rest.drop 64).length by
          simp only [List.length_drop]; omega)),
        bind_ok (readB_ge (show 1 ≤ (rest.drop 72).length by
          simp only [List.length_drop]; omega)),
        byte1_drop_take (show 72 < rest.length by omega),
        if_pos hb]
      rfl
    show runTag pWorkCpp (7 :: rest) = .invalid
    unfold runTag
    have hdrop : (7 :: rest).drop 1 = rest := rfl
    rw [hdrop, hrun]

/-- C5 witness: a concrete 170-byte template body whose merkle count
byte is 16 is rejected as Invalid. -/
theorem C5_witness :
    (170 ≤ cRest5.length ∧ 15 < cRest5.getD 148 0) ∧
    decodeWork (3 :: cRest5) = .invalid :=
  ⟨⟨by decide, by decide⟩,
   C5_length_invalid.1 cRest5 (by decide) (by decide)⟩

/-- C8: for every well-formed message of either protocol, decoding any
proper prefix of its encoding yields NeedMore — the framer never
consumes bytes (`codec::Decoder`, `src/msg_framing.rs:282,705`) until
the whole message is present. -/
theorem C8_prefix_needmore :
    (∀ (m : WorkMessage), WFWorkMsg m →
      ∀ k, k < (encodeWorkMsg m).length →
        decodeWork ((encodeWorkMsg m).take k) = .needMore) ∧
    (∀ (m : PoolMessage), WFPoolMsg m →
      ∀ k, k < (encodePoolMsg m).length →
        decodePool ((encodePoolMsg m).take k) = .needMore) := by
  constructor
  · intro m hwf k hk
    cases m with
    | protocolSupport a b c =>
      exact decodeWork_prefix _ _
        (rt_workSupport a b c hwf.1 hwf.2.1 hwf.2.2) k hk
    | protocolVersion v key =>
      exact decodeWork_prefix _ _ (rt_workVersion v key hwf.1 hwf.2) k hk
    | blockTemplate sig t =>
      exact decodeWork_prefix _ _ (rt_workTemplate sig t hwf.1 hwf.2) k hk
    | winningNonce n =>
      cases k with
      | zero => rfl
      | succ j => rfl
    | transactionDataRequest id =>
      cases k with
      | zero => rfl
      | succ j => rfl
    | transactionData sig d =>
      exact decodeWork_prefix _ _ (rt_workTxData sig d hwf.1 hwf.2) k hk
    | coinbasePrefixPostfix sig c =>
      exact decodeWork_prefix _ _ (rt_workCpp sig c hwf.1 hwf.2) k hk
  · intro m hwf k hk
    cases m with
    | protocolSupport a b c =>
      exact decodePool_prefix _ _
        (rt_poolSupport a b c hwf.1 hwf.2.1 hwf.2.2) k hk
    | protocolVersion v key =>
      exact decodePool_prefix _ _ (rt_poolVersion v key hwf.1 hwf.2) k hk
    | payoutInfo sig i =>
      exact decodePool_prefix _ _ (rt_poolPayout sig i hwf.1 hwf.2) k hk
    | shareDifficulty d =>
      exact decodePool_prefix _ _ (rt_poolDifficulty d hwf.1 hwf.2) k hk
    | share s =>
      cases k with
      | zero => rfl
      | succ j => rfl
    | weakBlock w =>
      cases k with
      | zero => rfl
      | succ j => rfl
    | weakBlockStateReset =>
      have hk0 : k = 0 := by
        simp [encodePoolMsg] at hk
        omega
      subst hk0
      rfl

/-- C8 witness: the one-byte prefix of an encoded ProtocolSupport
message decodes to NeedMore. -/
theorem C8_witness :
    (WFWorkMsg (.protocolSupport 5 1 0) ∧
      1 < (encodeWorkMsg (.protocolSupport 5 1 0)).length) ∧
    decodeWork ((encodeWorkMsg (.protocolSupport 5 1 0)).take 1) =
      .needMore :=
  ⟨⟨⟨by decide, by decide, by decide⟩, by decide⟩,
   C8_prefix_needmore.1 (.protocolSupport 5 1 0)
     ⟨by decide, by decide, by decide⟩ 1 (by decide)⟩

/-- C3: accepted updates are strictly monotonic.  A BlockTemplate whose
id does not exceed the current one, a CoinbasePrefixPostfix whose
timestamp does not exceed the current one, and a PayoutInfo whose
timestamp does not exceed the current one all leave the handler state
unchanged and emit no effects; conversely whenever handling changes
the state, the new key strictly exceeds the old one
(`src/main.rs:229,276,446`). -/
theorem C3_monotonic :
    (∀ (sigOk : SigPred) (us : JobProviderHandler) (sig : List Nat)
        (t ct : BlockTemplate), us.cur_template = some ct →
      t.template_id ≤ ct.template_id →
      (applyWork sigOk us (.blockTemplate sig t)).1 = us ∧
      (applyWork sigOk us (.blockTemplate sig t)).2.1 = []) ∧
    (∀ (sigOk : SigPred) (us : JobProviderHandler) (sig : List Nat)
        (t ct : BlockTemplate) (us' : JobProviderHandler)
        (effs : List JPEffect), us.cur_template = some ct →
      handleWork sigOk us (.blockTemplate sig t) = .ok (us', effs) →
      us' ≠ us → ct.template_id < t.template_id) ∧
    (∀ (sigOk : SigPred) (us : JobProviderHandler) (sig : List Nat)
        (cpp cur : CoinbasePrefixPostfix), us.curPrefixPostfix = some cur →
      cpp.timestamp ≤ cur.timestamp →
      (applyWork sigOk us (.coinbasePrefixPostfix sig cpp)).1 = us ∧
      (applyWork sigOk us (.coinbasePrefixPostfix sig cpp)).2.1 = []) ∧
    (∀ (sigOk : SigPred) (us : JobProviderHandler) (sig : List Nat)
        (cpp cur : CoinbasePrefixPostfix) (us' : JobProviderHandler)
        (effs : List JPEffect), us.curPrefixPostfix = some cur →
      handleWork sigOk us (.coinbasePrefixPostfix sig cpp) =
        .ok (us', effs) →
      us' ≠ us → cur.timestamp < cpp.timestamp) ∧
    (∀ (sigOk : SigPred) (us : PoolHandler) (sig : List Nat)
        (pi cur : PoolPayoutInfo), us.cur_payout_info = some cur →
      pi.timestamp ≤ cur.timestamp →
      (applyPool sigOk us (.payoutInfo sig pi)).1 = us ∧
      (applyPool sigOk us (.payoutInfo sig pi)).2.1 = []) ∧
    (∀ (sigOk : SigPred) (us : PoolHandler) (sig : List Nat)
        (pi cur : PoolPayoutInfo) (us' : PoolHandler)
        (effs : List PoolEffect), us.cur_payout_info = some cur →
      handlePool sigOk us (.payoutInfo sig pi) = .ok (us', effs) →
      us' ≠ us → cur.timestamp < pi.timestamp) := by
  refine ⟨?_, ?_, ?_, ?_, ?_, ?_⟩
  · intro sigOk us sig t ct hct hle
    by_cases hsig : check_msg_sig sigOk us.auth_key 3
        (encodeTemplateUnsigned t) sig
    · simp [applyWork, handleWork, hsig, hct,
        show ¬ ct.template_id < t.template_id by omega]
    · simp [applyWork, handleWork, hsig]
  · intro sigOk us sig t ct us' effs hct h hne
    by_cases hsig : check_msg_sig sigOk us.auth_key 3
        (encodeTemplateUnsigned t) sig
    · by_cases hlt : ct.template_id < t.template_id
      · exact hlt
      · simp [handleWork, hsig, hct, hlt] at h
        exact absurd h.1.symm hne
    · simp [handleWork, hsig] at h
  · intro sigOk us sig cpp cur hcur hle
    by_cases hsig : check_msg_sig sigOk us.auth_key 7
        (encodeCppUnsigned cpp) sig
    · simp [applyWork, handleWork, hsig, hcur,
        show ¬ cur.timestamp < cpp.timestamp by omega]
    · simp [applyWork, handleWork, hsig]
  · intro sigOk us sig cpp cur us' effs hcur h hne
    by_cases hsig : check_msg_sig sigOk us.auth_key 7
        (encodeCppUnsigned cpp) sig
    · by_cases hlt : cur.timestamp < cpp.timestamp
      · exact hlt
      · simp [handleWork, hsig, hcur, hlt] at h
        exact absurd h.1.symm hne
    · simp [handleWork, hsig] at h
  · intro sigOk us sig pi cur hcur hle
    by_cases hsig : check_msg_sig sigOk us.auth_key 3
        (encodePayoutInfoUnsigned pi) sig
    · simp [applyPool, handlePool, hsig, hcur,
        show ¬ cur.timestamp < pi.timestamp by omega]
    · simp [applyPool, handlePool, hsig]
  · intro sigOk us sig pi cur us' effs hcur h hne
    by_cases hsig : check_msg_sig sigOk us.auth_key 3
        (encodePayoutInfoUnsigned pi) sig
    · by_cases hlt : cur.timestamp < pi.timestamp
      · exact hlt
      · simp [handlePool, hsig, hcur, hlt] at h
        exact absurd h.1.symm hne
    · simp [handlePool, hsig] at h

/-- C3 witness: re-sending the currently installed template (equal id)
leaves the handler unchanged with no effects. -/
theorem C3_witness :
    (cJP3.cur_template = some (cTemplate 100) ∧
      (cTemplate 100).template_id ≤ (cTemplate 100).template_id) ∧
    (applyWork sigAlways cJP3 (.blockTemplate [] (cTemplate 100))).1 =
      cJP3 ∧
    (applyWork sigAlways cJP3 (.blockTemplate [] (cTemplate 100))).2.1 =
      [] :=
  ⟨⟨rfl, Nat.le_refl _⟩,
   C3_monotonic.1 sigAlways cJP3 [] (cTemplate 100) (cTemplate 100) rfl
     (Nat.le_refl _)⟩

/-- C4: every signed message (Work BlockTemplate, TransactionData,
CoinbasePrefixPostfix; Pool PayoutInfo) is verified before any state
change: a failing check leaves the handler unchanged with no effects
and closes the connection, a missing auth key always fails the check,
and a successful handling implies the signature verified against the
remembered key over `tag_byte || unsigned encoding`
(`src/main.rs:185`). -/
theorem C4_sig_gate :
    (∀ (sigOk : SigPred) (us : JobProviderHandler) (sig : List Nat)
        (t : BlockTemplate),
      check_msg_sig sigOk us.auth_key 3 (encodeTemplateUnsigned t) sig
        = false →
      applyWork sigOk us (.blockTemplate sig t) = (us, [], false)) ∧
    (∀ (sigOk : SigPred) (us : JobProviderHandler) (sig : List Nat)
        (d : TransactionData),
      check_msg_sig sigOk us.auth_key 6 (encodeTxDataUnsigned d) sig
        = false →
      applyWork sigOk us (.transactionData sig d) = (us, [], false)) ∧
    (∀ (sigOk : SigPred) (us : JobProviderHandler) (sig : List Nat)
        (cpp : CoinbasePrefixPostfix),
      check_msg_sig sigOk us.auth_key 7 (encodeCppUnsigned cpp) sig
        = false →
      applyWork sigOk us (.coinbasePrefixPostfix sig cpp) =
        (us, [], false)) ∧
    (∀ (sigOk : SigPred) (us : PoolHandler) (sig : List Nat)
        (pi : PoolPayoutInfo),
      check_msg_sig sigOk us.auth_key 3 (encodePayoutInfoUnsigned pi) sig
        = false →
      applyPool sigOk us (.payoutInfo sig pi) = (us, [], false)) ∧
    (∀ (sigOk : SigPred) (tag : Nat) (u s : List Nat),
      check_msg_sig sigOk none tag u s = false) ∧
    (∀ (sigOk : SigPred) (us : JobProviderHandler) (sig : List Nat)
        (t : BlockTemplate) (r : JobProviderHandler × List JPEffect),
      handleWork sigOk us (.blockTemplate sig t) = .ok r →
      ∃ pk, us.auth_key = some pk ∧
        sigOk sig pk (3 :: encodeTemplateUnsigned t) = true) ∧
    (∀ (sigOk : SigPred) (us : JobProviderHandler) (sig : List Nat)
        (d : TransactionData) (r : JobProviderHandler × List JPEffect),
      handleWork sigOk us (.transactionData sig d) = .ok r →
      ∃ pk, us.auth_key = some pk ∧
        sigOk sig pk (6 :: encodeTxDataUnsigned d) = true) ∧
    (∀ (sigOk : SigPred) (us : JobProviderHandler) (sig : List Nat)
        (cpp : CoinbasePrefixPostfix)
        (r : JobProviderHandler × List JPEffect),
      handleWork sigOk us (.coinbasePrefixPostfix sig cpp) = .ok r →
      ∃ pk, us.auth_key = some pk ∧
        sigOk sig pk (7 :: encodeCppUnsigned cpp) = true) ∧
    (∀ (sigOk : SigPred) (us : PoolHandler) (sig : List Nat)
        (pi : PoolPayoutInfo) (r : PoolHandler × List PoolEffect),
      handlePool sigOk us (.payoutInfo sig pi) = .ok r →
      ∃ pk, us.auth_key = some pk ∧
        sigOk sig pk (3 :: encodePayoutInfoUnsigned pi) = true) := by
  refine ⟨?_, ?_, ?_, ?_, ?_, ?_, ?_, ?_, ?_⟩
  · intro sigOk us sig t h
    simp [applyWork, handleWork, h]
  · intro sigOk us sig d h
    simp [applyWork, handleWork, h]
  · intro sigOk us sig cpp h
    simp [applyWork, handleWork, h]
  · intro sigOk us sig pi h
    simp [applyPool, handlePool, h]
  · intro sigOk tag u s
    rfl
  · intro sigOk us sig t r h
    by_cases hsig : check_msg_sig sigOk us.auth_key 3
        (encodeTemplateUnsigned t) sig
    · cases hak : us.auth_key with
      | none => simp [check_msg_sig, hak] at hsig
      | some pk =>
        refine ⟨pk, rfl, ?_⟩
        simpa [check_msg_sig, hak] using hsig
    · simp [handleWork, hsig] at h
  · intro sigOk us sig d r h
    by_cases hsig : check_msg_sig sigOk us.auth_key 6
        (encodeTxDataUnsigned d) sig
    · cases hak : us.auth_key with
      | none => simp [check_msg_sig, hak] at hsig
      | some pk =>
        refine ⟨pk, rfl, ?_⟩
        simpa [check_msg_sig, hak] using hsig
    · simp [handleWork, hsig] at h
  · intro sigOk us sig cpp r h
    by_cases hsig : check_msg_sig sigOk us.auth_key 7
        (encodeCppUnsigned cpp) sig
    · cases hak : us.auth_key with
      | none => simp [check_msg_sig, hak] at hsig
      | some pk =>
        refine ⟨pk, rfl, ?_⟩
        simpa [check_msg_sig, hak] using hsig
    · simp [handleWork, hsig] at h
  · intro sigOk us sig pi r h
    by_cases hsig : check_msg_sig sigOk us.auth_key 3
        (encodePayoutInfoUnsigned pi) sig
    · cases hak : us.auth_key with
      | none => simp [check_msg_sig, hak] at hsig
      | some pk =>
        refine ⟨pk, rfl, ?_⟩
        simpa [check_msg_sig, hak] using hsig
    · simp [handlePool, hsig] at h

/-- C4 witness: with no remembered auth key the signature check fails
and a BlockTemplate is rejected with the handler unchanged. -/
theorem C4_witness :
    check_msg_sig sigAlways cJP0.auth_key 3
      (encodeTemplateUnsigned (cTemplate 100)) [] = false ∧
    applyWork sigAlways cJP0 (.blockTemplate [] (cTemplate 100)) =
      (cJP0, [], false) :=
  ⟨rfl, C4_sig_gate.1 sigAlways cJP0 [] (cTemplate 100) rfl⟩

/-- A pool update step is the skip guard followed by the install
branch. -/
theorem stepProxy_poolUpdate (s : JobInfoState) (i : Nat)
    (info : PoolPayoutInfo) (diff : Option PoolDifficulty) :
    stepProxy s (.poolUpdate i info diff) =
      if (match s.cur_pool_source with
          | some j => s.pools_connected.getD j false && decide (j < i)
          | none => false) = true
      then s else poolInstall s i info diff := rfl

/-- When the install branch changes the active pool source it sets it
to the sender. -/
theorem poolInstall_cps (s : JobInfoState) (i : Nat) (info : PoolPayoutInfo)
    (diff : Option PoolDifficulty)
    (h : (poolInstall s i info diff).cur_pool_source ≠ s.cur_pool_source) :
    (poolInstall s i info diff).cur_pool_source = some i := by
  unfold poolInstall at h ⊢
  cases hj : s.cur_job with
  | none =>
    simp only [hj] at h ⊢
    cases hm : mergeJobPool s.payout_script none (some (info, diff)) with
    | some m => simp [hm]
    | none => simp [hm]
  | some jb =>
    simp only [hj] at h ⊢
    cases hm : mergeJobPool s.payout_script (some jb) (some (info, diff)) with
    | some m => simp [hm]
    | none => simp [hm] at h

/-- C9 counterexample: open pool 0, open pool 1, then an update from
pool 1 while no pool is active: `main` installs pool 1 as the active
pool even though pool 0 (lower priority index) is connected, because
the skip guard (`src/main.rs:745`) compares only against the current
active pool and no re-selection ever happens.  This refutes the claimed
invariant that the active pool is always the connected pool of lowest
priority index. -/
theorem C9_counterexample :
    (runProxy [1] 2
        [.poolOpen 0, .poolOpen 1, .poolUpdate 1 cInfo9 none]).cur_pool_source
      = some 1 ∧
    (runProxy [1] 2
        [.poolOpen 0, .poolOpen 1,
         .poolUpdate 1 cInfo9 none]).pools_connected.getD 0 false = true := by
  constructor <;> rfl

/-- C9 (amended): the per-step guard that the code does implement — an
update from pool `i` is skipped (state unchanged) when the active pool
`j` is connected and `j < i`; and whenever an update changes the
active pool source, the sender becomes active and either no pool was
active, or the active pool was disconnected, or the sender's priority
index is at most the active one's (`src/main.rs:737--767`). -/
theorem C9_pool_update_guard :
    (∀ (s : JobInfoState) (i : Nat) (info : PoolPayoutInfo)
        (diff : Option PoolDifficulty) (j : Nat),
      s.cur_pool_source = some j →
      s.pools_connected.getD j false = true → j < i →
      stepProxy s (.poolUpdate i info diff) = s) ∧
    (∀ (s : JobInfoState) (i : Nat) (info : PoolPayoutInfo)
        (diff : Option PoolDifficulty),
      (stepProxy s (.poolUpdate i info diff)).cur_pool_source ≠
        s.cur_pool_source →
      (stepProxy s (.poolUpdate i info diff)).cur_pool_source = some i ∧
      (s.cur_pool_source = none ∨
        ∃ j, s.cur_pool_source = some j ∧
          (s.pools_connected.getD j false = false ∨ i ≤ j))) := by
  constructor
  · intro s i info diff j h1 h2 h3
    simp only [stepProxy, h1, h2, Bool.true_and, decide_eq_true_eq]
    rw [if_pos]
    simp [h3]
  · intro s i info diff hne
    rw [stepProxy_poolUpdate] at hne ⊢
    cases hcps : s.cur_pool_source with
    | none =>
      refine ⟨?_, Or.inl rfl⟩
      simp only [hcps, Bool.false_eq_true, if_false] at hne ⊢
      have hne2 : (poolInstall s i info diff).cur_pool_source ≠
          s.cur_pool_source := by rw [hcps]; exact hne
      exact poolInstall_cps s i info diff hne2
    | some j =>
      simp only [hcps] at hne ⊢
      by_cases hskip :
          (s.pools_connected.getD j false && decide (j < i)) = true
      · rw [if_pos hskip, hcps] at hne
        exact absurd rfl hne
      · have hd : s.pools_connected.getD j false = false ∨ i ≤ j := by
          by_cases hc : s.pools_connected.getD j false = true
          · right
            have hdec : decide (j < i) = false := by
              cases hdec : decide (j < i) with
              | false => rfl
              | true => exact absurd (by rw [hc, hdec]; rfl) hskip
            have := of_decide_eq_false hdec
            omega
          · exact Or.inl (Bool.eq_false_iff.mpr hc)
        refine ⟨?_, Or.inr ⟨j, rfl, hd⟩⟩
        rw [if_neg hskip] at hne ⊢
        have hne2 : (poolInstall s i info diff).cur_pool_source ≠
            s.cur_pool_source := by rw [hcps]; exact hne
        exact poolInstall_cps s i info diff hne2

/-- C9 witness: with connected pool 0 active, an update from pool 1 is
skipped. -/
theorem C9_witness :
    (cS9.cur_pool_source = some 0 ∧
      cS9.pools_connected.getD 0 false = true ∧ 0 < 1) ∧
    stepProxy cS9 (.poolUpdate 1 cInfo9 none) = cS9 :=
  ⟨⟨rfl, rfl, by decide⟩,
   C9_pool_update_guard.1 cS9 1 cInfo9 none 0 rfl rfl (by decide)⟩
